import Mathlib

/-! Aggregation process (`aggregation.c`).

A shallow embedding of the Contiki process `aggregation` and of the helpers it
calls, with the C `float`s read as exact rationals.

* One timer event runs the body of the `while(1)` loop once; `tick` is that body.
* The value returned by `getLight()` in the sampling branch is the external
  input of a tick (`lux`); the branch stores `lux / 10`.
* What the process prints is kept as a list of `Output` events.  The digits
  produced by `d1`/`d2` are presentation only: an event holds the values that
  are handed to the formatting helpers.
* An access outside an array and a division by zero have no defined exact
  result; the functions return `none` there.
-/

namespace Aggregation

/-- Size of the sample buffer (`#define MAX_VALUES 12`). -/
def MAX_VALUES : Nat := 12

/-- The static variables of `PROCESS_THREAD(aggregation, ev, data)`. -/
structure State where
  count : Int
  sum : ℚ
  average : ℚ
  difference : ℚ
  variance : ℚ
  std_dev : ℚ
  buffer : Fin 12 → ℚ

/-- What one call of `reportOutcome` prints: the window `B`, the standard
deviation, the label and the reduced values `X`. -/
structure Report where
  B : List ℚ
  stdDev : ℚ
  aggregation : String
  X : List ℚ
deriving DecidableEq

/-- One printed item: the `Light Reading n: v` line of the sampling branch, or a
report of the reduce branch. -/
inductive Output where
  | lightReading (n : Int) (value : ℚ)
  | report (r : Report)
deriving DecidableEq

/-- Function `printArray(array, length)`: the loop prints `array[i]` for `0 ≤ i < length`,
then `array[i]` once more with the final `i`.  `none` when an index lies outside
the array. -/
def printArray (array : List ℚ) (length : Int) : Option (List ℚ) := do
  let body ← (List.range length.toNat).mapM (fun i => array[i]?)
  let last ← array[length.toNat]?
  pure (body ++ [last])

/-- Function `reportOutcome(buffer, X, length, std_dev, aggregation)`. -/
def reportOutcome (buffer : List ℚ) (X : List ℚ) (length : Int) (std_dev : ℚ)
    (aggregation : String) : Option Report := do
  let b ← printArray buffer 11
  let x ← printArray X length
  pure { B := b, stdDev := std_dev, aggregation := aggregation, X := x }

/-- The values of the variables after process initialisation (lines 109-114);
`buffer` is a static array, hence zero-filled. -/
def init : State :=
  { count := 0, sum := 0, average := 0, difference := 0, variance := 0,
    std_dev := 10, buffer := fun _ => 0 }

/-- The variance loop (lines 135-139) on the pair `(difference, variance)`. -/
def varianceLoop (buffer : Fin 12 → ℚ) (average : ℚ) (acc : ℚ × ℚ) : ℚ × ℚ :=
  (List.finRange 12).foldl
    (fun a i =>
      let difference := buffer i - average
      (difference, a.2 + difference * difference))
    acc

/-- The tolerance `float error = 0.001`. -/
def error : ℚ := 0.001

/-- Result of the Babylonian loop: the two variables it assigns and the number
of times its body ran. -/
structure LoopResult where
  std_dev : ℚ
  difference : ℚ
  iterations : Nat

/-- The Babylonian loop (lines 148-154) with `fuel` iterations left to run.
Dividing by a zero `std_dev` gives `none`. -/
def babylonian (variance : ℚ) : Nat → LoopResult → Option LoopResult
  | 0, r => some r
  | fuel + 1, r =>
    if r.std_dev = 0 then none
    else
      let std_dev := 0.5 * (r.std_dev + variance / r.std_dev)
      let differ := std_dev * std_dev - variance
      let difference := if differ < 0 then -r.difference else r.difference
      let r1 : LoopResult := ⟨std_dev, difference, r.iterations + 1⟩
      if differ < error then some r1 else babylonian variance fuel r1

/-- The statistics part of the reduce branch (lines 132-154): average,
variance, standard deviation.  Returns the variables and the number of
iterations of the Babylonian loop. -/
def statistics (s : State) : Option (State × Nat) :=
  let average := s.sum / 12
  let dv := varianceLoop s.buffer average (s.difference, s.variance)
  let variance := dv.2 / 12
  match babylonian variance 50 ⟨s.std_dev, dv.1, 0⟩ with
  | none => none
  | some r =>
    some ({ s with average := average, difference := r.difference,
                   variance := variance, std_dev := r.std_dev }, r.iterations)

/-- The `X` of the 4-into-1 branch (lines 174-178). -/
def groupMeans (buffer : Fin 12 → ℚ) : List ℚ :=
  List.ofFn (fun i : Fin 3 =>
    (buffer ⟨4 * i.val, by omega⟩ + buffer ⟨4 * i.val + 1, by omega⟩
      + buffer ⟨4 * i.val + 2, by omega⟩ + buffer ⟨4 * i.val + 3, by omega⟩) / 4)

/-- First classification `if` (lines 158-166). -/
def lowActivity (s : State) : Option (List Output) :=
  if s.std_dev ≤ 20 then
    (reportOutcome (List.ofFn s.buffer) [s.average] 0 s.std_dev "12-into-1").map
      (fun r => [Output.report r])
  else some []

/-- Second classification `if` (lines 169-181). -/
def someActivity (s : State) : Option (List Output) :=
  if s.std_dev > 20 ∧ s.std_dev < 40 then
    (reportOutcome (List.ofFn s.buffer) (groupMeans s.buffer) 2 s.std_dev "4-into-1").map
      (fun r => [Output.report r])
  else some []

/-- Third classification `if` (lines 184-195). -/
def highActivity (s : State) : Option (List Output) :=
  if s.std_dev ≥ 40 then
    (reportOutcome (List.ofFn s.buffer) (List.ofFn (fun i : Fin 12 => s.buffer i)) 11
        s.std_dev "No aggregation").map
      (fun r => [Output.report r])
  else some []

/-- The three classification `if`s, run one after the other (lines 156-195). -/
def selection (s : State) : Option (List Output) := do
  let o1 ← lowActivity s
  let o2 ← someActivity s
  let o3 ← highActivity s
  pure (o1 ++ o2 ++ o3)

/-- The reset at the end of the reduce branch (lines 199-204). -/
def reset (s : State) : State :=
  { s with count := 0, sum := 0, average := 0, difference := 0, variance := 0,
           std_dev := 10 }

/-- The reduce branch of the loop body (lines 130-210). -/
def reduce (s : State) : Option (State × List Output) :=
  match statistics s with
  | none => none
  | some (m, _) =>
    match selection m with
    | none => none
    | some out => some (reset m, out)

/-- The sampling branch of the loop body (lines 213-219); `lux` is the value
returned by `getLight()`.  Writing `buffer[count]` outside the array gives
`none`. -/
def sample (s : State) (lux : ℚ) : Option (State × List Output) :=
  let light_lx := lux / 10
  if h : 0 ≤ s.count ∧ s.count < 12 then
    some ({ s with sum := s.sum + light_lx,
                   buffer := Function.update s.buffer ⟨s.count.toNat, by omega⟩ light_lx,
                   count := s.count + 1 },
          [Output.lightReading (s.count + 1) light_lx])
  else none

/-- One pass through the body of `while(1)` on a timer event (lines 129-219). -/
def tick (s : State) (lux : ℚ) : Option (State × List Output) :=
  if s.count = MAX_VALUES then reduce s else sample s lux

/-- Successive ticks; `luxes` gives the sensor value at each tick. -/
def run : State → List ℚ → Option (State × List Output)
  | s, [] => some (s, [])
  | s, lux :: rest =>
    match tick s lux with
    | none => none
    | some (s1, out) =>
      match run s1 rest with
      | none => none
      | some (s2, out2) => some (s2, out ++ out2)

/-- States reachable from `init` by ticks. -/
inductive Reachable : State → Prop where
  | init : Reachable init
  | step {s s1 : State} {lux : ℚ} {out : List Output} :
      Reachable s → tick s lux = some (s1, out) → Reachable s1

/-- Sum of the samples stored so far, `buffer[0] + ... + buffer[count - 1]`. -/
def prefixSum (s : State) : ℚ :=
  ∑ i : Fin 12, if (i.val : Int) < s.count then s.buffer i else 0

/-- What holds of the static variables each time the process waits for the
timer: the window invariant, and the accumulators at their initial values. -/
def AtWait (s : State) : Prop :=
  0 ≤ s.count ∧ s.count ≤ 12 ∧ s.sum = prefixSum s ∧ s.average = 0 ∧ s.difference = 0
    ∧ s.variance = 0 ∧ s.std_dev = 10

/-- The variables at the start of a cycle whose buffer still holds `b`. -/
def fresh (b : Fin 12 → ℚ) : State :=
  { count := 0, sum := 0, average := 0, difference := 0, variance := 0, std_dev := 10,
    buffer := b }

/-- The variables once the twelve sensor values `lx` of a cycle are sampled. -/
def filled (lx : Fin 12 → ℚ) : State :=
  { count := 12, sum := ∑ i, lx i / 10, average := 0, difference := 0, variance := 0,
    std_dev := 10, buffer := fun i => lx i / 10 }

/-- Sensor values of a cycle that alternate between `0` and `a`. -/
def alternatingLux (a : ℚ) : Fin 12 → ℚ :=
  fun i => if i.val % 2 = 0 then 0 else a

/-- Sensor values of a cycle that all equal `c`. -/
def constantLux (c : ℚ) : Fin 12 → ℚ :=
  fun _ => c

/-- The reports among the printed items, in order. -/
def reports : List Output → List Report
  | [] => []
  | Output.report r :: rest => r :: reports rest
  | Output.lightReading _ _ :: rest => reports rest

/-- The readings printed by the sampling branch, in order: one for each call
of `getLight()`. -/
def readings : List Output → List ℚ
  | [] => []
  | Output.lightReading _ v :: rest => v :: readings rest
  | Output.report _ :: rest => readings rest

/-- The Babylonian loop (lines 148-154) with the statement
`if (differ<0) difference = -difference;` of line 152 removed. -/
def babylonianNoFlip (variance : ℚ) : Nat → LoopResult → Option LoopResult
  | 0, r => some r
  | fuel + 1, r =>
    if r.std_dev = 0 then none
    else
      let std_dev := 0.5 * (r.std_dev + variance / r.std_dev)
      let differ := std_dev * std_dev - variance
      let r1 : LoopResult := ⟨std_dev, r.difference, r.iterations + 1⟩
      if differ < error then some r1 else babylonianNoFlip variance fuel r1

/-- The statistics part of the reduce branch, with line 152 removed. -/
def statisticsNoFlip (s : State) : Option (State × Nat) :=
  let average := s.sum / 12
  let dv := varianceLoop s.buffer average (s.difference, s.variance)
  let variance := dv.2 / 12
  match babylonianNoFlip variance 50 ⟨s.std_dev, dv.1, 0⟩ with
  | none => none
  | some r =>
    some ({ s with average := average, difference := r.difference,
                   variance := variance, std_dev := r.std_dev }, r.iterations)

/-- The reduce branch, with line 152 removed. -/
def reduceNoFlip (s : State) : Option (State × List Output) :=
  match statisticsNoFlip s with
  | none => none
  | some (m, _) =>
    match selection m with
    | none => none
    | some out => some (reset m, out)

/-- One pass through the body of `while(1)`, with line 152 removed. -/
def tickNoFlip (s : State) (lux : ℚ) : Option (State × List Output) :=
  if s.count = MAX_VALUES then reduceNoFlip s else sample s lux

/-- Successive ticks of the process with line 152 removed. -/
def runNoFlip : State → List ℚ → Option (State × List Output)
  | s, [] => some (s, [])
  | s, lux :: rest =>
    match tickNoFlip s lux with
    | none => none
    | some (s1, out) =>
      match runNoFlip s1 rest with
      | none => none
      | some (s2, out2) => some (s2, out ++ out2)

/-! ## General facts -/

theorem error_eq : error = 1 / 1000 := by
  unfold error; norm_num

theorem sum_fin12 (f : Fin 12 → ℚ) :
    ∑ i : Fin 12, f i
      = f 0 + f 1 + f 2 + f 3 + f 4 + f 5 + f 6 + f 7 + f 8 + f 9 + f 10 + f 11 := by
  simp only [Fin.sum_univ_succ, Fin.sum_univ_zero]
  show f 0 + (f 1 + (f 2 + (f 3 + (f 4 + (f 5 + (f 6 + (f 7 + (f 8 + (f 9 + (f 10 + (f 11 + 0)))))))))))
      = _
  ring

/-! ### Printing -/

theorem printArray_buffer (b : Fin 12 → ℚ) :
    printArray (List.ofFn b) 11 = some (List.ofFn b) := rfl

theorem printArray_one (a : ℚ) : printArray [a] 0 = some [a] := rfl

theorem printArray_three (b : Fin 12 → ℚ) :
    printArray (groupMeans b) 2 = some (groupMeans b) := rfl

theorem groupMeans_eq (b : Fin 12 → ℚ) :
    groupMeans b = [(b 0 + b 1 + b 2 + b 3) / 4, (b 4 + b 5 + b 6 + b 7) / 4,
      (b 8 + b 9 + b 10 + b 11) / 4] := rfl

/-! ### The variance loop -/

theorem varianceLoop_eq (b : Fin 12 → ℚ) (avg d v : ℚ) :
    varianceLoop b avg (d, v) = (b 11 - avg, v + ∑ i : Fin 12, (b i - avg) ^ 2) := by
  rw [sum_fin12]
  simp [varianceLoop, List.finRange, List.ofFn, Fin.foldr, Fin.foldr.loop]
  ring

/-! ### The Babylonian loop -/

theorem babylonian_step_pos (v sd : ℚ) (hv : 0 ≤ v) (hsd : 0 < sd) :
    0 < 0.5 * (sd + v / sd) := by
  have h : 0 ≤ v / sd := div_nonneg hv hsd.le
  norm_num
  linarith

theorem babylonian_step_sq (v sd : ℚ) (hsd : sd ≠ 0) :
    0.5 * (sd + v / sd) * (0.5 * (sd + v / sd)) - v = (0.5 * (sd - v / sd)) ^ 2 := by
  field_simp
  ring

theorem babylonian_step_ge (v sd : ℚ) (hsd : sd ≠ 0) :
    0 ≤ 0.5 * (sd + v / sd) * (0.5 * (sd + v / sd)) - v := by
  rw [babylonian_step_sq v sd hsd]
  exact sq_nonneg _

/-- From a positive guess and a non-negative variance the loop returns; the
guess stays positive, `difference` is untouched, the body runs at most `fuel`
times and stops early only on the tolerance test; after one pass the square
of the guess is at least the variance. -/
theorem babylonian_spec (v : ℚ) (hv : 0 ≤ v) :
    ∀ (fuel : Nat) (r : LoopResult), 0 < r.std_dev →
      ∃ r1, babylonian v fuel r = some r1 ∧ 0 < r1.std_dev
        ∧ r1.difference = r.difference
        ∧ r1.iterations ≤ r.iterations + fuel
        ∧ (r1.iterations = r.iterations + fuel ∨ r1.std_dev * r1.std_dev - v < error)
        ∧ (0 < fuel → v ≤ r1.std_dev * r1.std_dev ∧ r.iterations < r1.iterations) := by
  intro fuel
  induction fuel with
  | zero =>
    intro r hr
    exact ⟨r, rfl, hr, rfl, le_refl _, Or.inl rfl, fun h => absurd h (lt_irrefl 0)⟩
  | succ k ih =>
    intro r hr
    have hne : r.std_dev ≠ 0 := ne_of_gt hr
    have hpos := babylonian_step_pos v r.std_dev hv hr
    have hge := babylonian_step_ge v r.std_dev hne
    have hnot :
        ¬ (0.5 * (r.std_dev + v / r.std_dev) * (0.5 * (r.std_dev + v / r.std_dev)) - v < 0) :=
      not_lt.mpr hge
    by_cases hbrk :
        0.5 * (r.std_dev + v / r.std_dev) * (0.5 * (r.std_dev + v / r.std_dev)) - v < error
    · refine ⟨⟨0.5 * (r.std_dev + v / r.std_dev), r.difference, r.iterations + 1⟩, ?_, hpos,
        rfl, by simp, Or.inr hbrk, fun _ => ⟨by linarith, by simp⟩⟩
      simp only [babylonian, if_neg hne, if_neg hnot, if_pos hbrk]
    · obtain ⟨r1, h1, h2, h3, h4, h5, h6⟩ :=
        ih ⟨0.5 * (r.std_dev + v / r.std_dev), r.difference, r.iterations + 1⟩ hpos
      refine ⟨r1, ?_, h2, h3, ?_, ?_, fun _ => ⟨?_, ?_⟩⟩
      · simp only [babylonian, if_neg hne, if_neg hnot, if_neg hbrk]
        exact h1
      · simp only at h4; omega
      · rcases h5 with h5 | h5
        · left; simp only at h5; omega
        · right; exact h5
      · rcases Nat.eq_zero_or_pos k with hk | hk
        · subst hk
          simp only [babylonian] at h1
          cases h1
          simp only
          linarith
        · exact (h6 hk).1
      · rcases Nat.eq_zero_or_pos k with hk | hk
        · subst hk
          simp only [babylonian] at h1
          cases h1
          simp
        · have := (h6 hk).2
          simp only at this
          omega

/-! ### The statistics stage -/

theorem statistics_spec (s : State) (hsd : 0 < s.std_dev) (hvar : 0 ≤ s.variance) :
    ∃ m n, statistics s = some (m, n) ∧ m.count = s.count ∧ m.sum = s.sum
      ∧ m.buffer = s.buffer ∧ m.average = s.sum / 12
      ∧ m.variance = (s.variance + ∑ i : Fin 12, (s.buffer i - s.sum / 12) ^ 2) / 12
      ∧ m.difference = s.buffer 11 - s.sum / 12
      ∧ 0 < m.std_dev ∧ m.variance ≤ m.std_dev * m.std_dev ∧ 1 ≤ n ∧ n ≤ 50
      ∧ (n = 50 ∨ m.std_dev * m.std_dev - m.variance < error) := by
  have hv : 0 ≤ (s.variance + ∑ i : Fin 12, (s.buffer i - s.sum / 12) ^ 2) / 12 := by
    apply div_nonneg _ (by norm_num)
    exact add_nonneg hvar (Finset.sum_nonneg (fun i _ => sq_nonneg _))
  obtain ⟨r1, h1, h2, h3, h4, h5, h6⟩ :=
    babylonian_spec _ hv 50 ⟨s.std_dev, s.buffer 11 - s.sum / 12, 0⟩ hsd
  have h7 := h6 (by norm_num)
  refine ⟨{ s with average := s.sum / 12, difference := r1.difference,
                    variance := (s.variance + ∑ i : Fin 12, (s.buffer i - s.sum / 12) ^ 2) / 12,
                    std_dev := r1.std_dev },
    r1.iterations, ?_, rfl, rfl, rfl, rfl, rfl, h3, h2, h7.1, ?_, ?_, ?_⟩
  · simp only [statistics, varianceLoop_eq, h1]
  · have := h7.2; simp only at this; omega
  · simp only at h4; omega
  · rcases h5 with h5 | h5
    · left; simp only at h5; omega
    · right; exact h5

/-! ### The selection stage -/

theorem selection_low (m : State) (h : m.std_dev ≤ 20) :
    selection m = some [Output.report
      ⟨List.ofFn m.buffer, m.std_dev, "12-into-1", [m.average]⟩] := by
  have h1 : ¬ (m.std_dev > 20 ∧ m.std_dev < 40) := fun h1 => absurd h1.1 (not_lt.mpr h)
  have h2 : ¬ (m.std_dev ≥ 40) := fun h2 => by linarith
  simp only [selection, lowActivity, someActivity, highActivity, if_pos h, if_neg h1, if_neg h2,
    reportOutcome, printArray_buffer, printArray_one]
  rfl

theorem selection_some (m : State) (h : 20 < m.std_dev) (h1 : m.std_dev < 40) :
    selection m = some [Output.report
      ⟨List.ofFn m.buffer, m.std_dev, "4-into-1", groupMeans m.buffer⟩] := by
  have h0 : ¬ (m.std_dev ≤ 20) := not_le.mpr h
  have h2 : ¬ (m.std_dev ≥ 40) := not_le.mpr h1
  have h3 : m.std_dev > 20 ∧ m.std_dev < 40 := ⟨h, h1⟩
  simp only [selection, lowActivity, someActivity, highActivity, if_neg h0, if_pos h3, if_neg h2,
    reportOutcome, printArray_buffer, printArray_three]
  rfl

theorem selection_high (m : State) (h : 40 ≤ m.std_dev) :
    selection m = some [Output.report
      ⟨List.ofFn m.buffer, m.std_dev, "No aggregation", List.ofFn m.buffer⟩] := by
  have h0 : ¬ (m.std_dev ≤ 20) := fun h0 => by linarith
  have h1 : ¬ (m.std_dev > 20 ∧ m.std_dev < 40) := fun h1 => by linarith [h1.2]
  have h2 : m.std_dev ≥ 40 := h
  simp only [selection, lowActivity, someActivity, highActivity, if_neg h0, if_neg h1, if_pos h2,
    reportOutcome, printArray_buffer]
  rfl

/-! ### The invariant at the wait -/

theorem prefixSum_zero (s : State) (h : s.count = 0) : prefixSum s = 0 := by
  unfold prefixSum
  apply Finset.sum_eq_zero
  intro i _
  have : ¬ ((i.val : Int) < s.count) := by omega
  rw [if_neg this]

theorem prefixSum_full (s : State) (h : s.count = 12) : prefixSum s = ∑ i : Fin 12, s.buffer i := by
  unfold prefixSum
  apply Finset.sum_congr rfl
  intro i _
  have : (i.val : Int) < s.count := by have := i.isLt; omega
  rw [if_pos this]

theorem atWait_init : AtWait init := by
  refine ⟨le_refl _, by norm_num [init], ?_, rfl, rfl, rfl, rfl⟩
  rw [prefixSum_zero init rfl]
  rfl

theorem atWait_fresh (b : Fin 12 → ℚ) : AtWait (fresh b) := by
  refine ⟨le_refl _, by norm_num [fresh], ?_, rfl, rfl, rfl, rfl⟩
  rw [prefixSum_zero (fresh b) rfl]
  rfl

/-- The sampling branch from a state at the wait with room left. -/
theorem sample_atWait (s : State) (lux : ℚ) (hs : AtWait s) (hc : s.count ≠ 12) :
    ∃ s1, tick s lux = some (s1, [Output.lightReading (s.count + 1) (lux / 10)])
      ∧ s1.count = s.count + 1 ∧ s1.sum = s.sum + lux / 10
      ∧ (∀ i : Fin 12, s1.buffer i = if (i.val : Int) = s.count then lux / 10 else s.buffer i)
      ∧ AtWait s1 := by
  obtain ⟨h0, h12, hsum, ha, hd, hv, hsd⟩ := hs
  have hlt : s.count < 12 := lt_of_le_of_ne h12 hc
  have hb : 0 ≤ s.count ∧ s.count < 12 := ⟨h0, hlt⟩
  have hbuf : ∀ i : Fin 12,
      Function.update s.buffer ⟨s.count.toNat, by omega⟩ (lux / 10) i
        = if (i.val : Int) = s.count then lux / 10 else s.buffer i := by
    intro i
    by_cases hi : (i.val : Int) = s.count
    · have : i = ⟨s.count.toNat, by omega⟩ := by
        apply Fin.ext; simp only; omega
      rw [if_pos hi, this, Function.update_same]
    · have : i ≠ ⟨s.count.toNat, by omega⟩ := by
        intro h; apply hi; rw [h]; simp only; omega
      rw [if_neg hi, Function.update_noteq this]
  refine ⟨{ s with sum := s.sum + lux / 10,
                    buffer := Function.update s.buffer ⟨s.count.toNat, by omega⟩ (lux / 10),
                    count := s.count + 1 }, ?_, rfl, rfl, hbuf, ?_⟩
  · simp only [tick, MAX_VALUES, Nat.cast_ofNat, if_neg hc, sample, dif_pos hb]
  · refine ⟨by simp only; omega, by simp only; omega, ?_, ha, hd, hv, hsd⟩
    simp only [prefixSum, hbuf]
    rw [hsum]
    unfold prefixSum
    have hsplit : ∀ i : Fin 12,
        (if (i.val : Int) < s.count + 1 then
            (if (i.val : Int) = s.count then lux / 10 else s.buffer i) else 0)
          = (if (i.val : Int) < s.count then s.buffer i else 0)
            + (if i = (⟨s.count.toNat, by omega⟩ : Fin 12) then lux / 10 else 0) := by
      intro i
      by_cases hi : (i.val : Int) = s.count
      · have e : i = (⟨s.count.toNat, by omega⟩ : Fin 12) := by
          apply Fin.ext; simp only; omega
        have h1 : (i.val : Int) < s.count + 1 := by omega
        have h2 : ¬ ((i.val : Int) < s.count) := by omega
        rw [if_pos h1, if_pos hi, if_neg h2, if_pos e, zero_add]
      · have e : i ≠ (⟨s.count.toNat, by omega⟩ : Fin 12) := by
          intro h; apply hi; rw [h]; simp only; omega
        rw [if_neg hi, if_neg e, add_zero]
        by_cases h1 : (i.val : Int) < s.count
        · have h2 : (i.val : Int) < s.count + 1 := by omega
          rw [if_pos h1, if_pos h2]
        · have h2 : ¬ ((i.val : Int) < s.count + 1) := by omega
          rw [if_neg h1, if_neg h2]
    rw [Finset.sum_congr rfl (fun i _ => hsplit i), Finset.sum_add_distrib,
      Finset.sum_ite_eq' Finset.univ _ (fun _ => lux / 10)]
    simp

/-- The reduce branch from a state at the wait with a full window. -/
theorem reduce_atWait (s : State) (lux : ℚ) (hs : AtWait s) (hc : s.count = 12) :
    ∃ m n out, statistics s = some (m, n) ∧ selection m = some out
      ∧ tick s lux = some (fresh s.buffer, out)
      ∧ m.buffer = s.buffer
      ∧ m.average = (∑ i : Fin 12, s.buffer i) / 12
      ∧ m.variance = (∑ i : Fin 12, (s.buffer i - m.average) ^ 2) / 12
      ∧ 0 < m.std_dev ∧ m.variance ≤ m.std_dev * m.std_dev ∧ 1 ≤ n ∧ n ≤ 50
      ∧ (n = 50 ∨ m.std_dev * m.std_dev - m.variance < error) := by
  obtain ⟨h0, h12, hsum, ha, hd, hv, hsd⟩ := hs
  obtain ⟨m, n, e1, e2, e3, e4, e5, e6, e7, e8, e9, e10, e11, e12⟩ :=
    statistics_spec s (by rw [hsd]; norm_num) (by rw [hv])
  have hout : ∃ out, selection m = some out := by
    rcases le_or_lt m.std_dev 20 with h | h
    · exact ⟨_, selection_low m h⟩
    · rcases lt_or_le m.std_dev 40 with h1 | h1
      · exact ⟨_, selection_some m h h1⟩
      · exact ⟨_, selection_high m h1⟩
  obtain ⟨out, hout⟩ := hout
  have hcm : s.count = (MAX_VALUES : Int) := by rw [hc]; rfl
  have hsum2 : s.sum = ∑ i : Fin 12, s.buffer i := by rw [hsum, prefixSum_full s hc]
  refine ⟨m, n, out, e1, hout, ?_, e4, ?_, ?_, e8, e9, e10, e11, e12⟩
  · simp only [tick, if_pos hcm, reduce, e1, hout, reset, fresh, e4]
  · rw [e5, hsum2]
  · rw [e6, hv, zero_add, e5]

/-- Every tick from a state at the wait returns, and leads to a state at the wait. -/
theorem tick_atWait (s : State) (lux : ℚ) (hs : AtWait s) :
    ∃ s1 out, tick s lux = some (s1, out) ∧ AtWait s1 := by
  by_cases hc : s.count = 12
  · obtain ⟨m, n, out, _, _, h, _⟩ := reduce_atWait s lux hs hc
    exact ⟨_, out, h, atWait_fresh _⟩
  · obtain ⟨s1, h, _, _, _, h1⟩ := sample_atWait s lux hs hc
    exact ⟨s1, _, h, h1⟩

theorem reachable_atWait {s : State} (h : Reachable s) : AtWait s := by
  induction h with
  | init => exact atWait_init
  | step _ ht ih =>
    obtain ⟨s1, out, h1, h2⟩ := tick_atWait _ _ ih
    rw [h1] at ht
    cases ht
    exact h2

/-! ### Runs -/

theorem reachable_run {s : State} (h : Reachable s) :
    ∀ (luxes : List ℚ) {s1 : State} {out : List Output},
      run s luxes = some (s1, out) → Reachable s1 := by
  intro luxes
  induction luxes generalizing s with
  | nil =>
    intro s1 out hr
    simp only [run, Option.some.injEq, Prod.mk.injEq] at hr
    rw [← hr.1]; exact h
  | cons lux rest ih =>
    intro s1 out hr
    obtain ⟨s2, o2, h1, _⟩ := tick_atWait s lux (reachable_atWait h)
    simp only [run, h1] at hr
    cases h3 : run s2 rest with
    | none => rw [h3] at hr; cases hr
    | some p =>
      obtain ⟨s3, o3⟩ := p
      rw [h3] at hr
      simp only [Option.some.injEq, Prod.mk.injEq] at hr
      rw [← hr.1]
      exact ih (Reachable.step h h1) h3

/-- Twelve sampling ticks from the start of a cycle. -/
theorem run_fill (b0 lx : Fin 12 → ℚ) :
    run (fresh b0) (List.ofFn lx)
      = some (filled lx,
          List.ofFn (fun i : Fin 12 => Output.lightReading (i.val + 1) (lx i / 10))) := by
  have hl : List.ofFn lx
      = [lx 0, lx 1, lx 2, lx 3, lx 4, lx 5, lx 6, lx 7, lx 8, lx 9, lx 10, lx 11] := rfl
  rw [hl]
  simp only [filled, fresh, sum_fin12]
  simp [run, tick, sample, MAX_VALUES]
  refine ⟨?_, by repeat' constructor⟩
  funext i
  fin_cases i <;> simp [Function.update]

theorem atWait_count_zero (s : State) (hs : AtWait s) (hc : s.count = 0) :
    s = fresh s.buffer := by
  obtain ⟨h0, h12, hsum, ha, hd, hv, hsd⟩ := hs
  rw [prefixSum_zero s hc] at hsum
  cases s
  simp only [fresh] at *
  subst hc hsum ha hd hv hsd
  rfl

theorem init_eq_fresh : init = fresh (fun _ => 0) := rfl

theorem reachable_filled (lx : Fin 12 → ℚ) : Reachable (filled lx) := by
  have h := run_fill (fun _ => 0) lx
  rw [← init_eq_fresh] at h
  exact reachable_run Reachable.init _ h

theorem reachable_fresh (b : Fin 12 → ℚ) : Reachable (fresh b) := by
  have hr := reachable_filled (fun i => b i * 10)
  obtain ⟨m, n, out, _, _, h, _⟩ :=
    reduce_atWait (filled (fun i => b i * 10)) 0 (reachable_atWait hr) rfl
  have hb : (filled (fun i => b i * 10)).buffer = b := by
    funext i; simp [filled]
  rw [hb] at h
  exact Reachable.step hr h

/-! ## The claims -/

/-- C1: whatever `std_dev` holds at the classification stage, exactly one of the
three `if`s reports, so the stage emits exactly one report; its label is
"12-into-1" iff `std_dev ≤ 20`, "4-into-1" iff `20 < std_dev < 40`, and
"No aggregation" iff `std_dev ≥ 40`. -/
theorem selection_exactly_one (m : State) :
    ∃ r, selection m = some [Output.report r]
      ∧ (r.aggregation = "12-into-1" ↔ m.std_dev ≤ 20)
      ∧ (r.aggregation = "4-into-1" ↔ (20 < m.std_dev ∧ m.std_dev < 40))
      ∧ (r.aggregation = "No aggregation" ↔ 40 ≤ m.std_dev)
      ∧ ((lowActivity m = some [Output.report r] ∧ someActivity m = some []
            ∧ highActivity m = some [])
          ∨ (lowActivity m = some [] ∧ someActivity m = some [Output.report r]
            ∧ highActivity m = some [])
          ∨ (lowActivity m = some [] ∧ someActivity m = some []
            ∧ highActivity m = some [Output.report r])) := by
  rcases le_or_lt m.std_dev 20 with h | h
  · have h1 : ¬ (m.std_dev > 20 ∧ m.std_dev < 40) := fun h1 => absurd h1.1 (not_lt.mpr h)
    have h2 : ¬ (m.std_dev ≥ 40) := fun h2 => by linarith
    have h3 : ¬ (40 ≤ m.std_dev) := h2
    refine ⟨_, selection_low m h, by simp [h], by simp [h1], by simp [h3], Or.inl ⟨?_, ?_, ?_⟩⟩
    · simp only [lowActivity, if_pos h, reportOutcome, printArray_buffer, printArray_one]; rfl
    · simp only [someActivity, if_neg h1]
    · simp only [highActivity, if_neg h2]
  · have h0 : ¬ (m.std_dev ≤ 20) := not_le.mpr h
    rcases lt_or_le m.std_dev 40 with h1 | h1
    · have h2 : ¬ (m.std_dev ≥ 40) := not_le.mpr h1
      have h3 : ¬ (40 ≤ m.std_dev) := h2
      have h4 : m.std_dev > 20 ∧ m.std_dev < 40 := ⟨h, h1⟩
      refine ⟨_, selection_some m h h1, by simp [h0], by simp [h, h1], by simp [h3],
        Or.inr (Or.inl ⟨?_, ?_, ?_⟩)⟩
      · simp only [lowActivity, if_neg h0]
      · simp only [someActivity, if_pos h4, reportOutcome, printArray_buffer, printArray_three]
        rfl
      · simp only [highActivity, if_neg h2]
    · have h2 : ¬ (m.std_dev > 20 ∧ m.std_dev < 40) := fun h2 => by linarith [h2.2]
      have h3 : m.std_dev ≥ 40 := h1
      have h4 : ¬ (m.std_dev < 40) := not_lt.mpr h1
      refine ⟨_, selection_high m h1, by simp [h0], by simp [h4], by simp [h1],
        Or.inr (Or.inr ⟨?_, ?_, ?_⟩)⟩
      · simp only [lowActivity, if_neg h0]
      · simp only [someActivity, if_neg h2]
      · simp only [highActivity, if_pos h3, reportOutcome, printArray_buffer]
        rfl

/-- C2: on a full window whose variance is positive, the Babylonian loop
started from the guess 10 returns after at most 50 passes, and then either
`|std_dev ^ 2 - variance| < 0.001` or exactly 50 passes were made. -/
theorem babylonian_tolerance_or_budget (s : State) (hr : Reachable s) (hc : s.count = 12)
    (_hv : 0 < (∑ i : Fin 12, (s.buffer i - (∑ j : Fin 12, s.buffer j) / 12) ^ 2) / 12) :
    ∃ m n, statistics s = some (m, n)
      ∧ m.variance = (∑ i : Fin 12, (s.buffer i - (∑ j : Fin 12, s.buffer j) / 12) ^ 2) / 12
      ∧ s.std_dev = 10
      ∧ n ≤ 50
      ∧ (|m.std_dev ^ 2 - m.variance| < 0.001 ∨ n = 50) := by
  have hw := reachable_atWait hr
  obtain ⟨m, n, out, h1, _, _, _, h5, h6, h7, h8, h9, h10, h11⟩ := reduce_atWait s 0 hw hc
  refine ⟨m, n, h1, ?_, hw.2.2.2.2.2.2, h10, ?_⟩
  · rw [h6, h5]
  · rcases h11 with h | h
    · right; exact h
    · left
      have h0 : 0 ≤ m.std_dev ^ 2 - m.variance := by
        have : m.std_dev ^ 2 = m.std_dev * m.std_dev := sq m.std_dev
        linarith
      rw [abs_of_nonneg h0, sq]
      rw [error_eq] at h
      norm_num
      linarith

theorem alternatingLux_even (a : ℚ) (i : Fin 12) (h : i.val % 2 = 0) :
    alternatingLux a i = 0 := by
  simp only [alternatingLux, if_pos h]

theorem alternatingLux_odd (a : ℚ) (i : Fin 12) (h : ¬ i.val % 2 = 0) :
    alternatingLux a i = a := by
  simp only [alternatingLux, if_neg h]

theorem filled_alternating_variance (a : ℚ) :
    (∑ i : Fin 12, ((filled (alternatingLux a)).buffer i
        - (∑ j : Fin 12, (filled (alternatingLux a)).buffer j) / 12) ^ 2) / 12
      = (a / 20) ^ 2 := by
  simp only [sum_fin12, filled]
  rw [alternatingLux_even a 0 (by decide), alternatingLux_odd a 1 (by decide),
    alternatingLux_even a 2 (by decide), alternatingLux_odd a 3 (by decide),
    alternatingLux_even a 4 (by decide), alternatingLux_odd a 5 (by decide),
    alternatingLux_even a 6 (by decide), alternatingLux_odd a 7 (by decide),
    alternatingLux_even a 8 (by decide), alternatingLux_odd a 9 (by decide),
    alternatingLux_even a 10 (by decide), alternatingLux_odd a 11 (by decide)]
  ring

/-- Witness of C2: the window sampled from sensor values alternating between 0
and 200 (readings 0 and 20, variance 100). -/
theorem babylonian_tolerance_or_budget_witness :
    Reachable (filled (alternatingLux 200)) ∧ (filled (alternatingLux 200)).count = 12
    ∧ ∃ m n, statistics (filled (alternatingLux 200)) = some (m, n)
      ∧ m.variance = (∑ i : Fin 12, ((filled (alternatingLux 200)).buffer i
          - (∑ j : Fin 12, (filled (alternatingLux 200)).buffer j) / 12) ^ 2) / 12
      ∧ (filled (alternatingLux 200)).std_dev = 10
      ∧ n ≤ 50
      ∧ (|m.std_dev ^ 2 - m.variance| < 0.001 ∨ n = 50) :=
  ⟨reachable_filled (alternatingLux 200), rfl,
    babylonian_tolerance_or_budget (filled (alternatingLux 200))
      (reachable_filled (alternatingLux 200)) rfl
      (by rw [filled_alternating_variance]; norm_num)⟩

/-- One pass of the loop that does not meet the tolerance. -/
theorem babylonian_continue (v sd d sd1 : ℚ) (fuel n : Nat) (hsd : sd ≠ 0)
    (h1 : 0.5 * (sd + v / sd) = sd1) (h2 : 1 / 1000 ≤ sd1 * sd1 - v) :
    babylonian v (fuel + 1) ⟨sd, d, n⟩ = babylonian v fuel ⟨sd1, d, n + 1⟩ := by
  have h3 : ¬ (sd1 * sd1 - v < 0) := by linarith
  have h4 : ¬ (sd1 * sd1 - v < error) := by rw [error_eq]; linarith
  simp only [babylonian, if_neg hsd, h1, if_neg h3, if_neg h4]

/-- One pass of the loop that meets the tolerance. -/
theorem babylonian_break (v sd d sd1 : ℚ) (fuel n : Nat) (hsd : sd ≠ 0)
    (h1 : 0.5 * (sd + v / sd) = sd1) (h2 : 0 ≤ sd1 * sd1 - v)
    (h3 : sd1 * sd1 - v < 1 / 1000) :
    babylonian v (fuel + 1) ⟨sd, d, n⟩ = some ⟨sd1, d, n + 1⟩ := by
  have h4 : ¬ (sd1 * sd1 - v < 0) := by linarith
  have h5 : sd1 * sd1 - v < error := by rw [error_eq]; exact h3
  simp only [babylonian, if_neg hsd, h1, if_neg h4, if_pos h5]

/-- With variance 0 the loop halves the guess 10 nine times: `10 / 2 ^ 9 = 5 / 256`
is the first guess whose square is below the tolerance. -/
theorem babylonian_zero (d : ℚ) :
    babylonian 0 50 ⟨10, d, 0⟩ = some ⟨5 / 256, d, 9⟩ := by
  rw [babylonian_continue 0 10 d 5 49 0 (by norm_num) (by norm_num) (by norm_num),
    babylonian_continue 0 5 d (5 / 2) 48 1 (by norm_num) (by norm_num) (by norm_num),
    babylonian_continue 0 (5 / 2) d (5 / 4) 47 2 (by norm_num) (by norm_num) (by norm_num),
    babylonian_continue 0 (5 / 4) d (5 / 8) 46 3 (by norm_num) (by norm_num) (by norm_num),
    babylonian_continue 0 (5 / 8) d (5 / 16) 45 4 (by norm_num) (by norm_num) (by norm_num),
    babylonian_continue 0 (5 / 16) d (5 / 32) 44 5 (by norm_num) (by norm_num) (by norm_num),
    babylonian_continue 0 (5 / 32) d (5 / 64) 43 6 (by norm_num) (by norm_num) (by norm_num),
    babylonian_continue 0 (5 / 64) d (5 / 128) 42 7 (by norm_num) (by norm_num) (by norm_num),
    babylonian_break 0 (5 / 128) d (5 / 256) 41 8 (by norm_num) (by norm_num) (by norm_num)
      (by norm_num)]

theorem statistics_zero_variance (s : State) (hw : AtWait s) (hc : s.count = 12)
    (hv : ∑ i : Fin 12, (s.buffer i - (∑ j : Fin 12, s.buffer j) / 12) ^ 2 = 0) :
    statistics s
      = some ({ s with average := (∑ j : Fin 12, s.buffer j) / 12,
                       difference := s.buffer 11 - (∑ j : Fin 12, s.buffer j) / 12,
                       variance := 0, std_dev := 5 / 256 }, 9) := by
  obtain ⟨h0, h12, hsum, ha, hd, hvar, hsd⟩ := hw
  have hsum2 : s.sum = ∑ i : Fin 12, s.buffer i := by rw [hsum, prefixSum_full s hc]
  simp only [statistics, varianceLoop_eq, hsum2, hvar, hsd, hv, zero_add, zero_div,
    babylonian_zero]

theorem reset_eq_fresh (m : State) : reset m = fresh m.buffer := by
  simp only [reset, fresh]

/-- The reduce tick, from the results of its two stages. -/
theorem tick_reduce (s m : State) (n : Nat) (out : List Output) (lux : ℚ) (hc : s.count = 12)
    (hst : statistics s = some (m, n)) (hsel : selection m = some out) :
    tick s lux = some (fresh m.buffer, out) := by
  have hcm : s.count = (MAX_VALUES : Int) := by rw [hc]; rfl
  simp only [tick, if_pos hcm, reduce, hst, hsel, reset_eq_fresh]

theorem tick_zero_variance (s : State) (hw : AtWait s) (hc : s.count = 12)
    (hv : ∑ i : Fin 12, (s.buffer i - (∑ j : Fin 12, s.buffer j) / 12) ^ 2 = 0)
    (lux : ℚ) :
    tick s lux = some (fresh s.buffer,
      [Output.report ⟨List.ofFn s.buffer, 5 / 256, "12-into-1",
        [(∑ j : Fin 12, s.buffer j) / 12]⟩]) := by
  have hst := statistics_zero_variance s hw hc hv
  have hle : ({ s with average := (∑ j : Fin 12, s.buffer j) / 12,
                       difference := s.buffer 11 - (∑ j : Fin 12, s.buffer j) / 12,
                       variance := 0, std_dev := 5 / 256 } : State).std_dev ≤ 20 := by
    show (5 : ℚ) / 256 ≤ 20
    norm_num
  have h := tick_reduce s _ 9 _ lux hc hst (selection_low _ hle)
  exact h

/-- C3 (as the code has it): on a full window whose variance is 0 the reduce
step does not bypass the Babylonian loop: it runs it from the guess 10 for
nine passes, and the `std_dev` it reports and classifies is `5 / 256`
(whose square is below the tolerance), which selects "12-into-1". -/
theorem zero_variance_std_dev (s : State) (hr : Reachable s) (hc : s.count = 12)
    (hv : (∑ i : Fin 12, (s.buffer i - (∑ j : Fin 12, s.buffer j) / 12) ^ 2) / 12 = 0)
    (lux : ℚ) :
    ∃ m, statistics s = some (m, 9) ∧ m.variance = 0 ∧ m.std_dev = 5 / 256
      ∧ m.std_dev ^ 2 < 0.001
      ∧ tick s lux = some (fresh s.buffer,
          [Output.report ⟨List.ofFn s.buffer, 5 / 256, "12-into-1",
            [(∑ j : Fin 12, s.buffer j) / 12]⟩]) := by
  have hw := reachable_atWait hr
  have hv0 : ∑ i : Fin 12, (s.buffer i - (∑ j : Fin 12, s.buffer j) / 12) ^ 2 = 0 := by
    have h12 : (12 : ℚ) ≠ 0 := by norm_num
    rcases div_eq_zero_iff.mp hv with h | h
    · exact h
    · exact absurd h h12
  exact ⟨_, statistics_zero_variance s hw hc hv0, rfl, rfl, by norm_num,
    tick_zero_variance s hw hc hv0 lux⟩

theorem constant_window_variance (c : ℚ) :
    (∑ i : Fin 12, ((filled (constantLux c)).buffer i
        - (∑ j : Fin 12, (filled (constantLux c)).buffer j) / 12) ^ 2) / 12 = 0 := by
  simp only [sum_fin12, filled, constantLux]
  ring

/-- Witness of C3 (amended): twelve sensor values 0. -/
theorem zero_variance_std_dev_witness :
    Reachable (filled (constantLux 0)) ∧ (filled (constantLux 0)).count = 12
    ∧ ∃ m, statistics (filled (constantLux 0)) = some (m, 9) ∧ m.variance = 0
      ∧ m.std_dev = 5 / 256 ∧ m.std_dev ^ 2 < 0.001
      ∧ tick (filled (constantLux 0)) 0 = some (fresh (filled (constantLux 0)).buffer,
          [Output.report ⟨List.ofFn (filled (constantLux 0)).buffer, 5 / 256, "12-into-1",
            [(∑ j : Fin 12, (filled (constantLux 0)).buffer j) / 12]⟩]) :=
  ⟨reachable_filled _, rfl,
    zero_variance_std_dev (filled (constantLux 0)) (reachable_filled _) rfl
      (constant_window_variance 0) 0⟩

/-- C3 fails as stated: for the window of twelve readings 10 (sensor values
100) the variance is 0, yet the loop runs nine passes and the reduce step
reports `std_dev = 5 / 256`, not 0. -/
theorem zero_variance_std_dev_counterexample :
    Reachable (filled (constantLux 100))
    ∧ List.ofFn (filled (constantLux 100)).buffer = List.replicate 12 10
    ∧ ∃ m, statistics (filled (constantLux 100)) = some (m, 9) ∧ m.variance = 0
        ∧ m.std_dev = 5 / 256 ∧ m.std_dev ≠ 0
        ∧ ∃ s1, tick (filled (constantLux 100)) 0
            = some (s1, [Output.report ⟨List.replicate 12 10, 5 / 256, "12-into-1", [10]⟩]) := by
  have hl : List.ofFn (filled (constantLux 100)).buffer = List.replicate 12 10 := by
    simp only [filled, constantLux]
    norm_num [List.ofFn_succ, List.replicate]
  have hm : (∑ j : Fin 12, (filled (constantLux 100)).buffer j) / 12 = 10 := by
    simp only [sum_fin12, filled, constantLux]
    norm_num
  have hw := reachable_atWait (reachable_filled (constantLux 100))
  have hv0 : ∑ i : Fin 12, ((filled (constantLux 100)).buffer i
      - (∑ j : Fin 12, (filled (constantLux 100)).buffer j) / 12) ^ 2 = 0 := by
    simp only [sum_fin12, filled, constantLux]
    norm_num
  have ht := tick_zero_variance _ hw rfl hv0 0
  rw [hl, hm] at ht
  exact ⟨reachable_filled _, hl, _, statistics_zero_variance _ hw rfl hv0, rfl, rfl,
    by norm_num, _, ht⟩

/-- A cycle: from the start-of-cycle state, the twelve sampling ticks store the
readings `lx i / 10` in `buffer[0..11]`, and the statistics stage then
computes their mean and their population variance. -/
theorem cycle_statistics (s0 : State) (hr : Reachable s0) (h0 : s0.count = 0)
    (lx : Fin 12 → ℚ) :
    ∃ out m n, run s0 (List.ofFn lx) = some (filled lx, out)
      ∧ statistics (filled lx) = some (m, n)
      ∧ m.average = (∑ i : Fin 12, lx i / 10) / 12
      ∧ m.variance = (∑ i : Fin 12, (lx i / 10 - m.average) ^ 2) / 12 := by
  have hs0 := atWait_count_zero s0 (reachable_atWait hr) h0
  have hrun := run_fill s0.buffer lx
  rw [← hs0] at hrun
  obtain ⟨m, n, out, h1, _, _, _, h5, h6, _⟩ :=
    reduce_atWait (filled lx) 0 (reachable_atWait (reachable_filled lx)) rfl
  exact ⟨_, m, n, hrun, h1, h5, h6⟩

/-- C4: in every cycle (the state at its start is any reachable state with
`count = 0`), the twelve sampling ticks store the readings `lx i / 10` in
`buffer[0..11]`, and the `average` the reduce step then computes is their sum
divided by 12. -/
theorem average_is_mean (s0 : State) (hr : Reachable s0) (h0 : s0.count = 0)
    (lx : Fin 12 → ℚ) :
    ∃ s out m n, run s0 (List.ofFn lx) = some (s, out)
      ∧ s.count = 12 ∧ (∀ i : Fin 12, s.buffer i = lx i / 10)
      ∧ statistics s = some (m, n)
      ∧ m.average = (∑ i : Fin 12, lx i / 10) / 12 := by
  obtain ⟨out, m, n, h1, h2, h3, _⟩ := cycle_statistics s0 hr h0 lx
  exact ⟨filled lx, out, m, n, h1, rfl, fun _ => rfl, h2, h3⟩

/-- Witness of C4: a second cycle, started after a first window of twelve
readings 7, sampling the sensor values 10, 20, ..., 120. -/
theorem average_is_mean_witness :
    Reachable (fresh (fun _ => 7)) ∧ (fresh (fun _ => 7)).count = 0
    ∧ ∃ s out m n,
      run (fresh (fun _ => 7)) (List.ofFn (fun i : Fin 12 => ((i.val : ℚ) + 1) * 10))
        = some (s, out)
      ∧ s.count = 12 ∧ (∀ i : Fin 12, s.buffer i = ((i.val : ℚ) + 1) * 10 / 10)
      ∧ statistics s = some (m, n)
      ∧ m.average = (∑ i : Fin 12, ((i.val : ℚ) + 1) * 10 / 10) / 12 :=
  ⟨reachable_fresh _, rfl,
    average_is_mean (fresh (fun _ => 7)) (reachable_fresh _) rfl
      (fun i : Fin 12 => ((i.val : ℚ) + 1) * 10)⟩

/-- The mean of the readings 1, 2, ..., 12 of the witness is 13/2. -/
theorem average_is_mean_value :
    (∑ i : Fin 12, ((i.val : ℚ) + 1) * 10 / 10) / 12 = 13 / 2 := by
  rw [sum_fin12]
  show (((((0 : ℕ) : ℚ) + 1) * 10 / 10) + ((((1 : ℕ) : ℚ) + 1) * 10 / 10) + ((((2 : ℕ) : ℚ) + 1) * 10 / 10) +
      ((((3 : ℕ) : ℚ) + 1) * 10 / 10) + ((((4 : ℕ) : ℚ) + 1) * 10 / 10) + ((((5 : ℕ) : ℚ) + 1) * 10 / 10) +
      ((((6 : ℕ) : ℚ) + 1) * 10 / 10) + ((((7 : ℕ) : ℚ) + 1) * 10 / 10) + ((((8 : ℕ) : ℚ) + 1) * 10 / 10) +
      ((((9 : ℕ) : ℚ) + 1) * 10 / 10) + ((((10 : ℕ) : ℚ) + 1) * 10 / 10) + ((((11 : ℕ) : ℚ) + 1) * 10 / 10)) / 12 = 13 / 2
  norm_num

/-- C5: in every cycle the variance the reduce step computes is
`(1/12) * Σ (buffer[i] - average)^2` over the twelve readings of that cycle
alone, where `average` is their mean, and it is non-negative. -/
theorem variance_is_population_variance (s0 : State) (hr : Reachable s0) (h0 : s0.count = 0)
    (lx : Fin 12 → ℚ) :
    ∃ s out m n, run s0 (List.ofFn lx) = some (s, out)
      ∧ s.count = 12 ∧ (∀ i : Fin 12, s.buffer i = lx i / 10)
      ∧ statistics s = some (m, n)
      ∧ m.average = (∑ i : Fin 12, lx i / 10) / 12
      ∧ m.variance = (1 / 12) * ∑ i : Fin 12, (lx i / 10 - m.average) ^ 2
      ∧ 0 ≤ m.variance := by
  obtain ⟨out, m, n, h1, h2, h3, h4⟩ := cycle_statistics s0 hr h0 lx
  refine ⟨filled lx, out, m, n, h1, rfl, fun _ => rfl, h2, h3, ?_, ?_⟩
  · rw [h4]; ring
  · rw [h4]
    exact div_nonneg (Finset.sum_nonneg (fun i _ => sq_nonneg _)) (by norm_num)

/-- Witness of C5: a second cycle, started after a first window alternating
between 0 and 100, sampling the sensor values 10, 20, ..., 120. -/
theorem variance_is_population_variance_witness :
    Reachable (fresh (fun i => alternatingLux 1000 i / 10))
    ∧ (fresh (fun i => alternatingLux 1000 i / 10)).count = 0
    ∧ ∃ s out m n,
      run (fresh (fun i => alternatingLux 1000 i / 10))
          (List.ofFn (fun i : Fin 12 => ((i.val : ℚ) + 1) * 10))
        = some (s, out)
      ∧ s.count = 12 ∧ (∀ i : Fin 12, s.buffer i = ((i.val : ℚ) + 1) * 10 / 10)
      ∧ statistics s = some (m, n)
      ∧ m.average = (∑ i : Fin 12, ((i.val : ℚ) + 1) * 10 / 10) / 12
      ∧ m.variance = (1 / 12) * ∑ i : Fin 12, (((i.val : ℚ) + 1) * 10 / 10 - m.average) ^ 2
      ∧ 0 ≤ m.variance :=
  ⟨reachable_fresh _, rfl,
    variance_is_population_variance (fresh (fun i => alternatingLux 1000 i / 10))
      (reachable_fresh _) rfl (fun i : Fin 12 => ((i.val : ℚ) + 1) * 10)⟩

/-- The statistics stage leaves the window as it is. -/
theorem statistics_frame (s m : State) (n : Nat) (h : statistics s = some (m, n)) :
    m.buffer = s.buffer ∧ m.count = s.count ∧ m.sum = s.sum ∧ m.average = s.sum / 12 := by
  unfold statistics at h
  simp only at h
  split at h
  · cases h
  · simp only [Option.some.injEq, Prod.mk.injEq] at h
    rw [← h.1]
    exact ⟨rfl, rfl, rfl, rfl⟩

/-- C6: when the reduce step on a full window classifies `20 < std_dev < 40`,
it reports "4-into-1" with exactly three reduced values, the means of
`buffer[0..3]`, `buffer[4..7]` and `buffer[8..11]`; for the window
`1, 2, ..., 12` these are `2.5, 6.5, 10.5`. -/
theorem group_of_four_reduction (s m : State) (n : Nat) (lux : ℚ) (hc : s.count = 12)
    (hst : statistics s = some (m, n)) (h1 : 20 < m.std_dev) (h2 : m.std_dev < 40) :
    ∃ X, tick s lux = some (fresh s.buffer,
          [Output.report ⟨List.ofFn s.buffer, m.std_dev, "4-into-1", X⟩])
      ∧ X.length = 3
      ∧ X = [(s.buffer 0 + s.buffer 1 + s.buffer 2 + s.buffer 3) / 4,
             (s.buffer 4 + s.buffer 5 + s.buffer 6 + s.buffer 7) / 4,
             (s.buffer 8 + s.buffer 9 + s.buffer 10 + s.buffer 11) / 4]
      ∧ (s.buffer = ![1, 2, 3, 4, 5, 6, 7, 8, 9, 10, 11, 12] → X = [5 / 2, 13 / 2, 21 / 2]) := by
  have hb := (statistics_frame s m n hst).1
  have ht := tick_reduce s m n _ lux hc hst (selection_some m h1 h2)
  rw [hb] at ht
  refine ⟨groupMeans s.buffer, ht, rfl, groupMeans_eq s.buffer, ?_⟩
  intro hbuf
  rw [groupMeans_eq, hbuf]
  simp only [List.cons.injEq, and_true]
  refine ⟨?_, ?_, ?_⟩
  · show ((1 : ℚ) + 2 + 3 + 4) / 4 = 5 / 2
    norm_num
  · show ((5 : ℚ) + 6 + 7 + 8) / 4 = 13 / 2
    norm_num
  · show ((9 : ℚ) + 10 + 11 + 12) / 4 = 21 / 2
    norm_num

theorem babylonian_900 (d : ℚ) :
    babylonian 900 50 ⟨10, d, 0⟩ = some ⟨8589934594 / 286331153, d, 5⟩ := by
  rw [babylonian_continue 900 10 d 50 49 0 (by norm_num) (by norm_num) (by norm_num),
    babylonian_continue 900 50 d 34 48 1 (by norm_num) (by norm_num) (by norm_num),
    babylonian_continue 900 34 d (514 / 17) 47 2 (by norm_num) (by norm_num) (by norm_num),
    babylonian_continue 900 (514 / 17) d (131074 / 4369) 46 3 (by norm_num) (by norm_num)
      (by norm_num),
    babylonian_break 900 (131074 / 4369) d (8589934594 / 286331153) 45 4 (by norm_num)
      (by norm_num) (by norm_num) (by norm_num)]

theorem filled_alternating_sum (a : ℚ) :
    ∑ i : Fin 12, alternatingLux a i / 10 = 12 * (a / 20) := by
  rw [sum_fin12]
  rw [alternatingLux_even a 0 (by decide), alternatingLux_odd a 1 (by decide),
    alternatingLux_even a 2 (by decide), alternatingLux_odd a 3 (by decide),
    alternatingLux_even a 4 (by decide), alternatingLux_odd a 5 (by decide),
    alternatingLux_even a 6 (by decide), alternatingLux_odd a 7 (by decide),
    alternatingLux_even a 8 (by decide), alternatingLux_odd a 9 (by decide),
    alternatingLux_even a 10 (by decide), alternatingLux_odd a 11 (by decide)]
  ring

theorem filled_alternating_squares (a : ℚ) :
    ∑ i : Fin 12, (alternatingLux a i / 10 - a / 20) ^ 2 = 12 * (a / 20) ^ 2 := by
  rw [sum_fin12]
  rw [alternatingLux_even a 0 (by decide), alternatingLux_odd a 1 (by decide),
    alternatingLux_even a 2 (by decide), alternatingLux_odd a 3 (by decide),
    alternatingLux_even a 4 (by decide), alternatingLux_odd a 5 (by decide),
    alternatingLux_even a 6 (by decide), alternatingLux_odd a 7 (by decide),
    alternatingLux_even a 8 (by decide), alternatingLux_odd a 9 (by decide),
    alternatingLux_even a 10 (by decide), alternatingLux_odd a 11 (by decide)]
  ring

/-- The statistics stage on the window sampled from sensor values alternating
between 0 and 600: mean 30, variance 900, five passes of the loop. -/
theorem statistics_alternating_600 :
    statistics (filled (alternatingLux 600))
      = some (⟨12, 360, 30, 30, 900, 8589934594 / 286331153,
                fun i => alternatingLux 600 i / 10⟩, 5) := by
  have h1 : (360 : ℚ) / 12 = 30 := by norm_num
  have h2 : ∑ i : Fin 12, alternatingLux 600 i / 10 = 360 := by
    rw [filled_alternating_sum]; norm_num
  have h3 : ∑ i : Fin 12, (alternatingLux 600 i / 10 - 30) ^ 2 = 10800 := by
    have h := filled_alternating_squares 600
    have e : (600 : ℚ) / 20 = 30 := by norm_num
    rw [e] at h
    rw [h]; norm_num
  have h4 : ((0 : ℚ) + 10800) / 12 = 900 := by norm_num
  have h5 : alternatingLux 600 11 / 10 - 30 = 30 := by
    rw [alternatingLux_odd 600 11 (by decide)]; norm_num
  simp only [statistics, filled, varianceLoop_eq, h2, h1, h3, h4, h5, babylonian_900]

/-- Witness of C6: the window sampled from sensor values alternating between 0
and 600 (readings 0 and 60): its `std_dev` is computed as about 30.0000000003. -/
theorem group_of_four_reduction_witness :
    Reachable (filled (alternatingLux 600))
    ∧ statistics (filled (alternatingLux 600))
        = some (⟨12, 360, 30, 30, 900, 8589934594 / 286331153,
                  fun i => alternatingLux 600 i / 10⟩, 5)
    ∧ ∃ X, tick (filled (alternatingLux 600)) 0
          = some (fresh (filled (alternatingLux 600)).buffer,
              [Output.report ⟨List.ofFn (filled (alternatingLux 600)).buffer,
                8589934594 / 286331153, "4-into-1", X⟩])
      ∧ X.length = 3
      ∧ X = [((filled (alternatingLux 600)).buffer 0 + (filled (alternatingLux 600)).buffer 1
                + (filled (alternatingLux 600)).buffer 2
                + (filled (alternatingLux 600)).buffer 3) / 4,
             ((filled (alternatingLux 600)).buffer 4 + (filled (alternatingLux 600)).buffer 5
                + (filled (alternatingLux 600)).buffer 6
                + (filled (alternatingLux 600)).buffer 7) / 4,
             ((filled (alternatingLux 600)).buffer 8 + (filled (alternatingLux 600)).buffer 9
                + (filled (alternatingLux 600)).buffer 10
                + (filled (alternatingLux 600)).buffer 11) / 4]
      ∧ ((filled (alternatingLux 600)).buffer = ![1, 2, 3, 4, 5, 6, 7, 8, 9, 10, 11, 12]
          → X = [5 / 2, 13 / 2, 21 / 2]) :=
  ⟨reachable_filled _, statistics_alternating_600,
    group_of_four_reduction (filled (alternatingLux 600)) _ 5 0 rfl statistics_alternating_600
      (by norm_num) (by norm_num)⟩

/-- The example of the 4-into-1 reduction with `std_dev` forced to 30: the
classification stage on the window `1, 2, ..., 12` reports `2.5, 6.5, 10.5`. -/
theorem group_of_four_forced_example :
    selection ⟨12, 78, 13 / 2, 11 / 2, 143 / 12, 30, ![1, 2, 3, 4, 5, 6, 7, 8, 9, 10, 11, 12]⟩
      = some [Output.report ⟨[1, 2, 3, 4, 5, 6, 7, 8, 9, 10, 11, 12], 30, "4-into-1",
          [5 / 2, 13 / 2, 21 / 2]⟩] := by
  have h := selection_some
    ⟨12, 78, 13 / 2, 11 / 2, 143 / 12, 30, ![1, 2, 3, 4, 5, 6, 7, 8, 9, 10, 11, 12]⟩
    (by norm_num) (by norm_num)
  rw [h, groupMeans_eq]
  have e1 : List.ofFn (![1, 2, 3, 4, 5, 6, 7, 8, 9, 10, 11, 12] : Fin 12 → ℚ)
      = [1, 2, 3, 4, 5, 6, 7, 8, 9, 10, 11, 12] := rfl
  have e2 : ((1 : ℚ) + 2 + 3 + 4) / 4 = 5 / 2 := by norm_num
  have e3 : ((5 : ℚ) + 6 + 7 + 8) / 4 = 13 / 2 := by norm_num
  have e4 : ((9 : ℚ) + 10 + 11 + 12) / 4 = 21 / 2 := by norm_num
  simp only [e1]
  show some [Output.report ⟨[1, 2, 3, 4, 5, 6, 7, 8, 9, 10, 11, 12], 30, "4-into-1",
      [((1 : ℚ) + 2 + 3 + 4) / 4, ((5 : ℚ) + 6 + 7 + 8) / 4, ((9 : ℚ) + 10 + 11 + 12) / 4]⟩] = _
  rw [e2, e3, e4]

/-- C7: when the reduce step on a full window classifies `std_dev ≥ 40`, it
reports "No aggregation" and the reduced values are the twelve window values
in their order; the window is the same after the step. -/
theorem passthrough_identity (s m : State) (n : Nat) (lux : ℚ) (hc : s.count = 12)
    (hst : statistics s = some (m, n)) (h : 40 ≤ m.std_dev) :
    ∃ s1 X, tick s lux = some (s1,
          [Output.report ⟨List.ofFn s.buffer, m.std_dev, "No aggregation", X⟩])
      ∧ X = List.ofFn s.buffer
      ∧ X.length = 12
      ∧ (∀ i : Fin 12, X[i.val]? = some (s.buffer i))
      ∧ s1.buffer = s.buffer := by
  have hb := (statistics_frame s m n hst).1
  have ht := tick_reduce s m n _ lux hc hst (selection_high m h)
  rw [hb] at ht
  refine ⟨fresh s.buffer, List.ofFn s.buffer, ht, rfl, List.length_ofFn _, ?_, rfl⟩
  intro i
  rw [List.getElem?_ofFn]
  simp only [List.ofFnNthVal, dif_pos i.isLt]

/-- Witness of C7: the window sampled from sensor values alternating between 0
and 1000 (readings 0 and 100, variance 2500). -/
theorem passthrough_identity_witness :
    Reachable (filled (alternatingLux 1000)) ∧ (filled (alternatingLux 1000)).count = 12
    ∧ ∃ m n, statistics (filled (alternatingLux 1000)) = some (m, n) ∧ 40 ≤ m.std_dev
      ∧ ∃ s1 X, tick (filled (alternatingLux 1000)) 0 = some (s1,
            [Output.report ⟨List.ofFn (filled (alternatingLux 1000)).buffer, m.std_dev,
              "No aggregation", X⟩])
        ∧ X = List.ofFn (filled (alternatingLux 1000)).buffer
        ∧ X.length = 12
        ∧ (∀ i : Fin 12, X[i.val]? = some ((filled (alternatingLux 1000)).buffer i))
        ∧ s1.buffer = (filled (alternatingLux 1000)).buffer := by
  obtain ⟨m, n, out, h1, _, _, _, h5, h6, h7, h8, _⟩ :=
    reduce_atWait (filled (alternatingLux 1000)) 0
      (reachable_atWait (reachable_filled (alternatingLux 1000))) rfl
  have hv : m.variance = 2500 := by
    rw [h6, h5]
    have h := filled_alternating_variance 1000
    rw [h]; norm_num
  have h40 : 40 ≤ m.std_dev := by
    rw [hv] at h8
    nlinarith
  exact ⟨reachable_filled _, rfl, m, n, h1, h40,
    passthrough_identity (filled (alternatingLux 1000)) m n 0 rfl h1 h40⟩

/-- C8: if the twelve readings of a full window all equal `c`, the reduce step
computes variance 0, classifies "12-into-1", and the single reduced value is
`c`. -/
theorem constant_window_collapse (s : State) (hr : Reachable s) (hc : s.count = 12) (c : ℚ)
    (hall : ∀ i : Fin 12, s.buffer i = c) (lux : ℚ) :
    ∃ m n, statistics s = some (m, n) ∧ m.variance = 0 ∧ m.average = c ∧ m.std_dev ≤ 20
      ∧ tick s lux = some (fresh s.buffer,
          [Output.report ⟨List.ofFn s.buffer, m.std_dev, "12-into-1", [c]⟩]) := by
  have hw := reachable_atWait hr
  have hmean : (∑ j : Fin 12, s.buffer j) / 12 = c := by
    simp only [sum_fin12, hall]
    ring
  have hv : ∑ i : Fin 12, (s.buffer i - (∑ j : Fin 12, s.buffer j) / 12) ^ 2 = 0 := by
    rw [hmean]
    simp only [sum_fin12, hall]
    ring
  have ht := tick_zero_variance s hw hc hv lux
  rw [hmean] at ht
  exact ⟨_, 9, statistics_zero_variance s hw hc hv, rfl, hmean, by norm_num, ht⟩

/-- Witness of C8: twelve sensor values 100, that is twelve readings 10. -/
theorem constant_window_collapse_witness :
    Reachable (filled (constantLux 100)) ∧ (filled (constantLux 100)).count = 12
    ∧ (∀ i : Fin 12, (filled (constantLux 100)).buffer i = 10)
    ∧ ∃ m n, statistics (filled (constantLux 100)) = some (m, n) ∧ m.variance = 0
      ∧ m.average = 10 ∧ m.std_dev ≤ 20
      ∧ tick (filled (constantLux 100)) 0 = some (fresh (filled (constantLux 100)).buffer,
          [Output.report ⟨List.ofFn (filled (constantLux 100)).buffer, m.std_dev, "12-into-1",
            [10]⟩]) :=
  have hall : ∀ i : Fin 12, (filled (constantLux 100)).buffer i = 10 := by
    intro i
    show (100 : ℚ) / 10 = 10
    norm_num
  ⟨reachable_filled _, rfl, hall,
    constant_window_collapse (filled (constantLux 100)) (reachable_filled _) rfl 10 hall 0⟩

/-- C9: in every reachable state `0 ≤ count ≤ 12` and `sum` is the sum of
`buffer[0..count)`; from such a state every tick returns, and the state it
leads to satisfies the same, whether the tick samples (`count ≠ 12`) or
reduces (`count = 12`). -/
theorem window_invariant (s : State) (hr : Reachable s) :
    0 ≤ s.count ∧ s.count ≤ 12 ∧ s.sum = prefixSum s
      ∧ ∀ lux : ℚ, ∃ s1 out, tick s lux = some (s1, out)
          ∧ 0 ≤ s1.count ∧ s1.count ≤ 12 ∧ s1.sum = prefixSum s1
          ∧ (s.count ≠ 12 → sample s lux = some (s1, out) ∧ s1.count = s.count + 1
                ∧ s1.sum = s.sum + lux / 10)
          ∧ (s.count = 12 → reduce s = some (s1, out) ∧ s1.count = 0 ∧ s1.sum = 0) := by
  have hw := reachable_atWait hr
  refine ⟨hw.1, hw.2.1, hw.2.2.1, ?_⟩
  intro lux
  by_cases hc : s.count = 12
  · obtain ⟨m, n, out, _, _, h, _⟩ := reduce_atWait s lux hw hc
    have hf := atWait_fresh s.buffer
    have hcm : s.count = (MAX_VALUES : Int) := by rw [hc]; rfl
    refine ⟨_, out, h, hf.1, hf.2.1, hf.2.2.1, fun h1 => absurd hc h1, fun _ => ⟨?_, rfl, rfl⟩⟩
    simp only [tick, if_pos hcm] at h
    exact h
  · obtain ⟨s1, h, h1, h2, _, h4⟩ := sample_atWait s lux hw hc
    have hcm : ¬ s.count = (MAX_VALUES : Int) := by
      intro h5; apply hc; rw [h5]; rfl
    refine ⟨s1, _, h, h4.1, h4.2.1, h4.2.2.1, fun _ => ⟨?_, h1, h2⟩, fun h5 => absurd h5 hc⟩
    simp only [tick, if_neg hcm] at h
    exact h

/-- Witness of C9: the state with a full window of readings alternating
between 0 and 20. -/
theorem window_invariant_witness :
    Reachable (filled (alternatingLux 200))
    ∧ 0 ≤ (filled (alternatingLux 200)).count ∧ (filled (alternatingLux 200)).count ≤ 12
    ∧ (filled (alternatingLux 200)).sum = prefixSum (filled (alternatingLux 200))
    ∧ ∀ lux : ℚ, ∃ s1 out, tick (filled (alternatingLux 200)) lux = some (s1, out)
        ∧ 0 ≤ s1.count ∧ s1.count ≤ 12 ∧ s1.sum = prefixSum s1
        ∧ ((filled (alternatingLux 200)).count ≠ 12 →
              sample (filled (alternatingLux 200)) lux = some (s1, out)
              ∧ s1.count = (filled (alternatingLux 200)).count + 1
              ∧ s1.sum = (filled (alternatingLux 200)).sum + lux / 10)
        ∧ ((filled (alternatingLux 200)).count = 12 →
              reduce (filled (alternatingLux 200)) = some (s1, out) ∧ s1.count = 0
              ∧ s1.sum = 0) :=
  ⟨reachable_filled _,
    window_invariant (filled (alternatingLux 200)) (reachable_filled _)⟩

/-- C10: the reduce step leaves `count = 0` and `sum = 0`; the twelve ticks
after it store the readings `lx i / 10` they sample in `buffer[0..11]` with
`sum` their total and the accumulators at their initial values, so that the
next reduce step computes the mean and variance of these twelve readings
alone. -/
theorem reset_then_fresh_window (s : State) (hr : Reachable s) (hc : s.count = 12) (lux : ℚ)
    (lx : Fin 12 → ℚ) :
    ∃ s1 out1 s2 out2 m n, tick s lux = some (s1, out1) ∧ s1.count = 0 ∧ s1.sum = 0
      ∧ run s1 (List.ofFn lx) = some (s2, out2)
      ∧ s2.count = 12 ∧ (∀ i : Fin 12, s2.buffer i = lx i / 10)
      ∧ s2.sum = ∑ i : Fin 12, lx i / 10
      ∧ s2.average = 0 ∧ s2.difference = 0 ∧ s2.variance = 0 ∧ s2.std_dev = 10
      ∧ statistics s2 = some (m, n)
      ∧ m.average = (∑ i : Fin 12, lx i / 10) / 12
      ∧ m.variance = (∑ i : Fin 12, (lx i / 10 - m.average) ^ 2) / 12 := by
  have hw := reachable_atWait hr
  obtain ⟨_, _, out1, _, _, h, _⟩ := reduce_atWait s lux hw hc
  obtain ⟨out2, m, n, h1, h2, h3, h4⟩ :=
    cycle_statistics (fresh s.buffer) (reachable_fresh _) rfl lx
  exact ⟨fresh s.buffer, out1, filled lx, out2, m, n, h, rfl, rfl, h1, rfl, fun _ => rfl, rfl,
    rfl, rfl, rfl, rfl, h2, h3, h4⟩

/-- Witness of C10: after reducing a window alternating between 0 and 100, the
next cycle samples twelve sensor values 100. -/
theorem reset_then_fresh_window_witness :
    Reachable (filled (alternatingLux 1000)) ∧ (filled (alternatingLux 1000)).count = 12
    ∧ ∃ s1 out1 s2 out2 m n, tick (filled (alternatingLux 1000)) 0 = some (s1, out1)
      ∧ s1.count = 0 ∧ s1.sum = 0
      ∧ run s1 (List.ofFn (constantLux 100)) = some (s2, out2)
      ∧ s2.count = 12 ∧ (∀ i : Fin 12, s2.buffer i = constantLux 100 i / 10)
      ∧ s2.sum = ∑ i : Fin 12, constantLux 100 i / 10
      ∧ s2.average = 0 ∧ s2.difference = 0 ∧ s2.variance = 0 ∧ s2.std_dev = 10
      ∧ statistics s2 = some (m, n)
      ∧ m.average = (∑ i : Fin 12, constantLux 100 i / 10) / 12
      ∧ m.variance = (∑ i : Fin 12, (constantLux 100 i / 10 - m.average) ^ 2) / 12 :=
  ⟨reachable_filled _, rfl,
    reset_then_fresh_window (filled (alternatingLux 1000)) (reachable_filled _) rfl 0
      (constantLux 100)⟩

/-- The statistics stage at the wait, in terms of the loop: the guess handed to
the loop is the seed 10. -/
theorem statistics_loop (s : State) (hw : AtWait s) (hc : s.count = 12) (r : LoopResult)
    (h : babylonian ((∑ i : Fin 12, (s.buffer i - (∑ j : Fin 12, s.buffer j) / 12) ^ 2) / 12) 50
          ⟨10, s.buffer 11 - (∑ j : Fin 12, s.buffer j) / 12, 0⟩ = some r) :
    statistics s
      = some ({ s with average := (∑ j : Fin 12, s.buffer j) / 12,
                       difference := r.difference,
                       variance := (∑ i : Fin 12,
                          (s.buffer i - (∑ j : Fin 12, s.buffer j) / 12) ^ 2) / 12,
                       std_dev := r.std_dev }, r.iterations) := by
  obtain ⟨h0, h12, hsum, ha, hd, hvar, hsd⟩ := hw
  have hsum2 : s.sum = ∑ i : Fin 12, s.buffer i := by rw [hsum, prefixSum_full s hc]
  simp only [statistics, varianceLoop_eq, hsum2, hvar, hsd, zero_add, h]

/-- C11 (as the code has it): the Babylonian loop of every cycle, the first and
every later one, starts from the seed 10: `std_dev` is 10 at every wait, the
loop of the reduce step is run from the guess 10, and the reduce step leaves
`std_dev = 10` again. -/
theorem seed_every_cycle (s : State) (hr : Reachable s) (hc : s.count = 12) (lux : ℚ) :
    s.std_dev = 10
    ∧ ∃ m n r s1 out, statistics s = some (m, n)
        ∧ babylonian m.variance 50 ⟨10, s.buffer 11 - m.average, 0⟩ = some r
        ∧ m.std_dev = r.std_dev ∧ n = r.iterations
        ∧ tick s lux = some (s1, out) ∧ s1.std_dev = 10 := by
  have hw := reachable_atWait hr
  have hv : 0 ≤ (∑ i : Fin 12, (s.buffer i - (∑ j : Fin 12, s.buffer j) / 12) ^ 2) / 12 :=
    div_nonneg (Finset.sum_nonneg (fun i _ => sq_nonneg _)) (by norm_num)
  obtain ⟨r, h1, _⟩ := babylonian_spec _ hv 50
    ⟨10, s.buffer 11 - (∑ j : Fin 12, s.buffer j) / 12, 0⟩ (by norm_num)
  have hst := statistics_loop s hw hc r h1
  obtain ⟨_, _, out, _, _, ht, _⟩ := reduce_atWait s lux hw hc
  exact ⟨hw.2.2.2.2.2.2, _, _, r, fresh s.buffer, out, hst, h1, rfl, rfl, ht, rfl⟩

/-- Witness of C11 (amended): the window of twelve readings 10. -/
theorem seed_every_cycle_witness :
    Reachable (filled (constantLux 100)) ∧ (filled (constantLux 100)).count = 12
    ∧ (filled (constantLux 100)).std_dev = 10
    ∧ ∃ m n r s1 out, statistics (filled (constantLux 100)) = some (m, n)
        ∧ babylonian m.variance 50 ⟨10, (filled (constantLux 100)).buffer 11 - m.average, 0⟩
            = some r
        ∧ m.std_dev = r.std_dev ∧ n = r.iterations
        ∧ tick (filled (constantLux 100)) 0 = some (s1, out) ∧ s1.std_dev = 10 :=
  ⟨reachable_filled _, rfl,
    seed_every_cycle (filled (constantLux 100)) (reachable_filled _) rfl 0⟩

/-- C11 fails as stated: two successive cycles of twelve readings 10.  The
first reduce step computes `std_dev = 5 / 256`; at the second reduce step the
guess is 10 again, not `5 / 256`, and the step reports `5 / 256` once more,
where the loop run from the guess `5 / 256` would give `5 / 512`. -/
theorem seed_every_cycle_counterexample :
    (∃ m1, statistics (filled (constantLux 100)) = some (m1, 9) ∧ m1.std_dev = 5 / 256)
    ∧ tick (filled (constantLux 100)) 0
        = some (fresh (filled (constantLux 100)).buffer,
            [Output.report ⟨List.ofFn (filled (constantLux 100)).buffer, 5 / 256, "12-into-1",
              [(∑ j : Fin 12, (filled (constantLux 100)).buffer j) / 12]⟩])
    ∧ (∃ out2, run (fresh (filled (constantLux 100)).buffer) (List.ofFn (constantLux 100))
          = some (filled (constantLux 100), out2))
    ∧ (filled (constantLux 100)).std_dev = 10 ∧ (10 : ℚ) ≠ 5 / 256
    ∧ babylonian 0 50 ⟨10, 0, 0⟩ = some ⟨5 / 256, 0, 9⟩
    ∧ babylonian 0 50 ⟨5 / 256, 0, 0⟩ = some ⟨5 / 512, 0, 1⟩ := by
  have hw := reachable_atWait (reachable_filled (constantLux 100))
  have hv0 : ∑ i : Fin 12, ((filled (constantLux 100)).buffer i
      - (∑ j : Fin 12, (filled (constantLux 100)).buffer j) / 12) ^ 2 = 0 := by
    simp only [sum_fin12, filled, constantLux]
    norm_num
  refine ⟨⟨_, statistics_zero_variance _ hw rfl hv0, rfl⟩,
    tick_zero_variance _ hw rfl hv0 0, ⟨_, run_fill _ _⟩, rfl, by norm_num,
    babylonian_zero 0, ?_⟩
  exact babylonian_break 0 (5 / 256) 0 (5 / 512) 49 0 (by norm_num) (by norm_num)
    (by norm_num) (by norm_num)

/-! ### Ticks and what they print -/

theorem reports_append (a b : List Output) : reports (a ++ b) = reports a ++ reports b := by
  induction a with
  | nil => rfl
  | cons x rest ih =>
    cases x with
    | lightReading n v => simpa [reports] using ih
    | report r => simpa [reports] using ih

theorem readings_append (a b : List Output) : readings (a ++ b) = readings a ++ readings b := by
  induction a with
  | nil => rfl
  | cons x rest ih =>
    cases x with
    | lightReading n v => simpa [readings] using ih
    | report r => simpa [readings] using ih

/-- A run followed by one more tick. -/
theorem run_snoc (luxes : List ℚ) (lux : ℚ) :
    ∀ (s s1 s2 : State) (out out1 : List Output), run s luxes = some (s1, out) →
      tick s1 lux = some (s2, out1) → run s (luxes ++ [lux]) = some (s2, out ++ out1) := by
  induction luxes with
  | nil =>
    intro s s1 s2 out out1 h1 h2
    simp only [run, Option.some.injEq, Prod.mk.injEq] at h1
    obtain ⟨e1, e2⟩ := h1
    subst e1 e2
    simp only [List.nil_append, run, h2, List.append_nil]
  | cons x rest ih =>
    intro s s1 s2 out out1 h1 h2
    simp only [run] at h1
    cases ht : tick s x with
    | none => rw [ht] at h1; cases h1
    | some p =>
      obtain ⟨sa, oa⟩ := p
      rw [ht] at h1
      simp only at h1
      cases hr : run sa rest with
      | none => rw [hr] at h1; cases h1
      | some q =>
        obtain ⟨sb, ob⟩ := q
        rw [hr] at h1
        simp only [Option.some.injEq, Prod.mk.injEq] at h1
        obtain ⟨e1, e2⟩ := h1
        subst e1 e2
        have h3 := ih sa sb s2 ob out1 hr h2
        show run s (x :: (rest ++ [lux])) = _
        simp only [run, ht, h3, List.append_assoc]

/-- The reduce tick from a state at the wait: one report and nothing else, the
label and reduced values by the band of `std_dev`. -/
theorem reduce_report (s : State) (lux : ℚ) (hw : AtWait s) (hc : s.count = 12) :
    ∃ m n r, statistics s = some (m, n)
      ∧ tick s lux = some (fresh s.buffer, [Output.report r])
      ∧ r.B = List.ofFn s.buffer ∧ r.stdDev = m.std_dev
      ∧ (m.std_dev ≤ 20 → r.aggregation = "12-into-1" ∧ r.X = [m.average])
      ∧ (20 < m.std_dev → m.std_dev < 40 →
            r.aggregation = "4-into-1" ∧ r.X = groupMeans s.buffer)
      ∧ (40 ≤ m.std_dev → r.aggregation = "No aggregation" ∧ r.X = List.ofFn s.buffer)
      ∧ m.average = (∑ i : Fin 12, s.buffer i) / 12
      ∧ m.variance = (∑ i : Fin 12, (s.buffer i - m.average) ^ 2) / 12
      ∧ 0 < m.std_dev ∧ m.variance ≤ m.std_dev * m.std_dev ∧ 1 ≤ n ∧ n ≤ 50
      ∧ (n = 50 ∨ m.std_dev * m.std_dev - m.variance < error) := by
  obtain ⟨m, n, out, h1, _, _, h4, h5, h6, h7, h8, h9, h10, h11⟩ := reduce_atWait s lux hw hc
  rcases le_or_lt m.std_dev 20 with h | h
  · have ht := tick_reduce s m n _ lux hc h1 (selection_low m h)
    rw [h4] at ht
    refine ⟨m, n, _, h1, ht, rfl, rfl, fun _ => ⟨rfl, rfl⟩, fun h' => absurd h (not_le.mpr h'),
      fun h' => ?_, h5, h6, h7, h8, h9, h10, h11⟩
    exact absurd h (not_le.mpr (by linarith))
  · rcases lt_or_le m.std_dev 40 with h' | h'
    · have ht := tick_reduce s m n _ lux hc h1 (selection_some m h h')
      rw [h4] at ht
      exact ⟨m, n, _, h1, ht, rfl, rfl, fun h2 => absurd h2 (not_le.mpr h),
        fun _ _ => ⟨rfl, rfl⟩, fun h2 => absurd h' (not_lt.mpr h2), h5, h6, h7, h8, h9, h10, h11⟩
    · have ht := tick_reduce s m n _ lux hc h1 (selection_high m h')
      rw [h4] at ht
      exact ⟨m, n, _, h1, ht, rfl, rfl, fun h2 => absurd h2 (not_le.mpr h),
        fun _ h2 => absurd h' (not_le.mpr h2), fun _ => ⟨rfl, rfl⟩, h5, h6, h7, h8, h9, h10, h11⟩

/-- After `n` ticks from the initial state `count` is `n mod 13`, `n / 13`
reports were printed and `n - n / 13` samples were read. -/
theorem run_schedule (luxes : List ℚ) :
    ∃ s out, run init luxes = some (s, out) ∧ Reachable s
      ∧ s.count = ((luxes.length % 13 : ℕ) : ℤ)
      ∧ (reports out).length = luxes.length / 13
      ∧ (readings out).length = luxes.length - luxes.length / 13 := by
  induction luxes using List.reverseRecOn with
  | nil => exact ⟨init, [], rfl, Reachable.init, rfl, rfl, rfl⟩
  | append_singleton l x ih =>
    obtain ⟨s, out, h1, h2, h3, h4, h5⟩ := ih
    have hw := reachable_atWait h2
    by_cases hc : s.count = 12
    · obtain ⟨m, n, r, _, ht, _⟩ := reduce_report s x hw hc
      refine ⟨_, _, run_snoc l x init s _ out _ h1 ht, Reachable.step h2 ht, ?_, ?_, ?_⟩
      · simp only [fresh, List.length_append, List.length_singleton]
        omega
      · simp only [reports_append, reports, List.length_append, List.length_singleton,
          List.length_nil, h4]
        omega
      · simp only [readings_append, readings, List.length_append, List.length_singleton,
          List.length_nil, h5, List.append_nil]
        omega
    · obtain ⟨s1, ht, h6, _, _, _⟩ := sample_atWait s x hw hc
      refine ⟨_, _, run_snoc l x init s _ out _ h1 ht, Reachable.step h2 ht, ?_, ?_, ?_⟩
      · simp only [List.length_append, List.length_singleton]
        omega
      · simp only [reports_append, reports, List.length_append, List.length_singleton,
          List.length_nil, h4, List.append_nil]
        omega
      · simp only [readings_append, readings, List.length_append, List.length_singleton,
          List.length_nil, h5]
        omega

/-- C12 (as the code has it): a tick either samples or reduces.  After `n`
ticks from the initial state `n / 13` reports were printed and `n - n / 13`
samples were read.  Tick number `n + 1` reduces exactly when 13 divides
`n + 1`: it then finds `count = 12`, reads no sample, prints one report and
leaves `count = 0`; otherwise it reads one sample, prints no report and
increments `count`. -/
theorem tick_schedule (luxes : List ℚ) (lux : ℚ) :
    ∃ s out s1 out1, run init luxes = some (s, out)
      ∧ (reports out).length = luxes.length / 13
      ∧ (readings out).length = luxes.length - luxes.length / 13
      ∧ tick s lux = some (s1, out1)
      ∧ ((luxes.length + 1) % 13 = 0 →
            s.count = 12 ∧ (∃ r, out1 = [Output.report r]) ∧ readings out1 = []
            ∧ s1.count = 0)
      ∧ ((luxes.length + 1) % 13 ≠ 0 →
            s.count ≠ 12 ∧ out1 = [Output.lightReading (s.count + 1) (lux / 10)]
            ∧ reports out1 = [] ∧ s1.count = s.count + 1) := by
  obtain ⟨s, out, h1, h2, h3, h4, h5⟩ := run_schedule luxes
  have hw := reachable_atWait h2
  by_cases hc : s.count = 12
  · obtain ⟨m, n, r, _, ht, _⟩ := reduce_report s lux hw hc
    refine ⟨s, out, _, _, h1, h4, h5, ht, fun _ => ⟨hc, ⟨r, rfl⟩, rfl, rfl⟩, fun h => ?_⟩
    exfalso
    rw [h3] at hc
    omega
  · obtain ⟨s1, ht, h6, _, _, _⟩ := sample_atWait s lux hw hc
    refine ⟨s, out, s1, _, h1, h4, h5, ht, fun h => ?_, fun _ => ⟨hc, rfl, rfl, h6⟩⟩
    exfalso
    apply hc
    rw [h3]
    omega

/-- C12 fails as stated: from the initial state, the twelve sampling ticks
print no report and the twelfth leaves `count = 12`, not 0; the thirteenth tick
prints the report and reads no sample, so thirteen ticks read twelve samples. -/
theorem tick_schedule_counterexample :
    (∃ out, run init (List.ofFn (constantLux 100)) = some (filled (constantLux 100), out)
        ∧ reports out = [] ∧ (readings out).length = 12)
    ∧ (List.ofFn (constantLux 100)).length = 12
    ∧ (filled (constantLux 100)).count = 12
    ∧ (∃ s1 r, tick (filled (constantLux 100)) 100 = some (s1, [Output.report r])
        ∧ readings [Output.report r] = [] ∧ s1.count = 0)
    ∧ (∃ s13 out13, run init (List.ofFn (constantLux 100) ++ [100]) = some (s13, out13)
        ∧ (reports out13).length = 1 ∧ (readings out13).length = 12) := by
  have hrun := run_fill (fun _ => 0) (constantLux 100)
  rw [← init_eq_fresh] at hrun
  have hw := reachable_atWait (reachable_filled (constantLux 100))
  obtain ⟨m, n, r, _, ht, _⟩ := reduce_report (filled (constantLux 100)) 100 hw rfl
  have hlen : (List.ofFn (constantLux 100)).length = 12 := List.length_ofFn _
  have hrep : reports (List.ofFn (fun i : Fin 12 =>
      Output.lightReading (i.val + 1) (constantLux 100 i / 10))) = [] := rfl
  have hrd : (readings (List.ofFn (fun i : Fin 12 =>
      Output.lightReading (i.val + 1) (constantLux 100 i / 10)))).length = 12 := rfl
  refine ⟨⟨_, hrun, hrep, hrd⟩, hlen, rfl, ⟨_, r, ht, rfl, rfl⟩, ?_⟩
  refine ⟨_, _, run_snoc _ 100 init _ _ _ _ hrun ht, ?_, ?_⟩
  · rw [reports_append, hrep]; rfl
  · rw [readings_append, List.length_append, hrd]; rfl

/-! ### Array reads of `printArray` -/

theorem mapM_single (f : Nat → Option ℚ) (k : Nat) :
    [k].mapM f = (f k).map (fun b => [b]) := by
  rw [List.mapM_cons, List.mapM_nil]
  cases f k <;> rfl

/-- The loop of `printArray`: reading the indices `0 .. n - 1` succeeds exactly
when they all lie inside the array, and yields its first `n` elements. -/
theorem mapM_range_getElem (array : List ℚ) :
    ∀ n : Nat, (List.range n).mapM (fun i => array[i]?)
      = if n ≤ array.length then some (array.take n) else none := by
  intro n
  induction n with
  | zero =>
    rw [if_pos (Nat.zero_le _), List.range_zero, List.mapM_nil, List.take_zero]
    rfl
  | succ k ih =>
    rw [List.range_succ, List.mapM_append, ih, mapM_single]
    by_cases hk : k + 1 ≤ array.length
    · have hk1 : k ≤ array.length := by omega
      have hk2 : k < array.length := by omega
      rw [if_pos hk1, if_pos hk, List.getElem?_eq_getElem hk2, List.take_succ,
        List.getElem?_eq_getElem hk2]
      rfl
    · rw [if_neg hk]
      by_cases hk1 : k ≤ array.length
      · have hk2 : array.length ≤ k := by omega
        rw [if_pos hk1, List.getElem?_eq_none hk2]
        rfl
      · rw [if_neg hk1]
        rfl

/-- Function `printArray(array, length)` reads the indices `0 .. length`: it
succeeds exactly when `length` is an index of the array, and then prints the
first `length + 1` elements. -/
theorem printArray_eq (array : List ℚ) (length : Int) :
    printArray array length
      = if length.toNat < array.length then some (array.take (length.toNat + 1)) else none := by
  unfold printArray
  rw [mapM_range_getElem]
  by_cases h : length.toNat < array.length
  · have h1 : length.toNat ≤ array.length := by omega
    rw [if_pos h1, if_pos h, List.take_succ, List.getElem?_eq_getElem h]
    rfl
  · rw [if_neg h]
    by_cases h1 : length.toNat ≤ array.length
    · have h2 : array.length ≤ length.toNat := by omega
      rw [if_pos h1, List.getElem?_eq_none h2]
      rfl
    · rw [if_neg h1]
      rfl

/-- C13: `printArray(array, length)` reads the indices `0 .. length` and no
other; at its call sites the array passed has `length + 1` elements (the window
with 11, the reduced values with 0, 2 and 11), so every read is inside the
array: the report prints the whole window, 12 values, and 1, 3 or 12 reduced
values for "12-into-1", "4-into-1" and "No aggregation". -/
theorem report_reads_in_bounds (m : State) :
    (∀ (array : List ℚ) (length : Int), printArray array length
        = if length.toNat < array.length then some (array.take (length.toNat + 1)) else none)
    ∧ (List.ofFn m.buffer).length = 11 + 1
    ∧ [m.average].length = 0 + 1
    ∧ (groupMeans m.buffer).length = 2 + 1
    ∧ (List.ofFn (fun i : Fin 12 => m.buffer i)).length = 11 + 1
    ∧ ∃ r, selection m = some [Output.report r]
        ∧ r.B = List.ofFn m.buffer ∧ r.B.length = 12
        ∧ (m.std_dev ≤ 20 →
            r.aggregation = "12-into-1" ∧ r.X = [m.average] ∧ r.X.length = 1)
        ∧ (20 < m.std_dev ∧ m.std_dev < 40 →
            r.aggregation = "4-into-1" ∧ r.X = groupMeans m.buffer ∧ r.X.length = 3)
        ∧ (40 ≤ m.std_dev →
            r.aggregation = "No aggregation" ∧ r.X = List.ofFn m.buffer ∧ r.X.length = 12) := by
  have hlen : (List.ofFn m.buffer).length = 12 := List.length_ofFn _
  refine ⟨printArray_eq, hlen, rfl, rfl, hlen, ?_⟩
  rcases le_or_lt m.std_dev 20 with h | h
  · refine ⟨_, selection_low m h, rfl, hlen, fun _ => ⟨rfl, rfl, rfl⟩,
      fun h' => absurd h (not_le.mpr h'.1), fun h' => ?_⟩
    exact absurd h (not_le.mpr (by linarith))
  · rcases lt_or_le m.std_dev 40 with h' | h'
    · exact ⟨_, selection_some m h h', rfl, hlen,
        fun h2 => absurd h2 (not_le.mpr h), fun _ => ⟨rfl, rfl, rfl⟩,
        fun h2 => absurd h' (not_lt.mpr h2)⟩
    · exact ⟨_, selection_high m h', rfl, hlen,
        fun h2 => absurd h2 (not_le.mpr h), fun h2 => absurd h' (not_le.mpr h2.2),
        fun _ => ⟨rfl, rfl, hlen⟩⟩

/-- C14: at the reduce step of any cycle the guess is the seed 10, and the
Babylonian loop cut after any number `k` of passes returns with a positive
`std_dev`: every value `std_dev` takes in the loop is positive, no pass divides
by zero, and the statistics stage returns. -/
theorem loop_guess_positive (s : State) (hr : Reachable s) (hc : s.count = 12) :
    s.std_dev = 10
    ∧ ∃ m n, statistics s = some (m, n) ∧ 0 ≤ m.variance ∧ 0 < m.std_dev
        ∧ (∃ r, babylonian m.variance 50 ⟨s.std_dev, s.buffer 11 - m.average, 0⟩ = some r
              ∧ m.std_dev = r.std_dev ∧ n = r.iterations)
        ∧ ∀ k : Nat, ∃ r,
            babylonian m.variance k ⟨s.std_dev, s.buffer 11 - m.average, 0⟩ = some r
              ∧ 0 < r.std_dev := by
  have hw := reachable_atWait hr
  have hsd : s.std_dev = 10 := hw.2.2.2.2.2.2
  have hv : 0 ≤ (∑ i : Fin 12, (s.buffer i - (∑ j : Fin 12, s.buffer j) / 12) ^ 2) / 12 :=
    div_nonneg (Finset.sum_nonneg (fun i _ => sq_nonneg _)) (by norm_num)
  obtain ⟨r, h1, h2, _⟩ := babylonian_spec _ hv 50
    ⟨10, s.buffer 11 - (∑ j : Fin 12, s.buffer j) / 12, 0⟩ (by norm_num)
  have hst := statistics_loop s hw hc r h1
  refine ⟨hsd, _, _, hst, hv, h2, ⟨r, ?_, rfl, rfl⟩, fun k => ?_⟩
  · rw [hsd]; exact h1
  · obtain ⟨rk, h3, h4, _⟩ := babylonian_spec _ hv k
      ⟨10, s.buffer 11 - (∑ j : Fin 12, s.buffer j) / 12, 0⟩ (by norm_num)
    refine ⟨rk, ?_, h4⟩
    rw [hsd]; exact h3

/-- Witness of C14: the window of twelve readings 0, whose variance is 0. -/
theorem loop_guess_positive_witness :
    Reachable (filled (constantLux 0)) ∧ (filled (constantLux 0)).count = 12
    ∧ (filled (constantLux 0)).std_dev = 10
    ∧ ∃ m n, statistics (filled (constantLux 0)) = some (m, n) ∧ 0 ≤ m.variance
        ∧ 0 < m.std_dev
        ∧ (∃ r, babylonian m.variance 50
                ⟨(filled (constantLux 0)).std_dev,
                  (filled (constantLux 0)).buffer 11 - m.average, 0⟩ = some r
              ∧ m.std_dev = r.std_dev ∧ n = r.iterations)
        ∧ ∀ k : Nat, ∃ r,
            babylonian m.variance k
                ⟨(filled (constantLux 0)).std_dev,
                  (filled (constantLux 0)).buffer 11 - m.average, 0⟩ = some r
              ∧ 0 < r.std_dev :=
  ⟨reachable_filled _, rfl,
    loop_guess_positive (filled (constantLux 0)) (reachable_filled _) rfl⟩

/-- C15: in every reachable state a tick returns; with a full window
(`count = 12`) it stores no reading, prints no `Light Reading` line and leaves
`buffer` as it is; otherwise `0 ≤ count ≤ 11` and the only write is
`buffer[count] = lux / 10`.  The branch that writes is never taken with
`count = 12`. -/
theorem append_in_bounds (s : State) (hr : Reachable s) (lux : ℚ) :
    ∃ s1 out, tick s lux = some (s1, out)
      ∧ (s.count = 12 → s1.buffer = s.buffer ∧ readings out = [] ∧ tick s lux = reduce s)
      ∧ (s.count ≠ 12 → 0 ≤ s.count ∧ s.count ≤ 11
            ∧ tick s lux = sample s lux ∧ readings out = [lux / 10]
            ∧ ∀ i : Fin 12, s1.buffer i = if (i.val : Int) = s.count then lux / 10
                else s.buffer i) := by
  have hw := reachable_atWait hr
  by_cases hc : s.count = 12
  · obtain ⟨m, n, r, _, ht, _⟩ := reduce_report s lux hw hc
    have hcm : s.count = (MAX_VALUES : Int) := by rw [hc]; rfl
    refine ⟨_, _, ht, fun _ => ⟨rfl, rfl, ?_⟩, fun h => absurd hc h⟩
    simp only [tick, if_pos hcm]
  · obtain ⟨s1, ht, _, _, h3, _⟩ := sample_atWait s lux hw hc
    have hcm : ¬ s.count = (MAX_VALUES : Int) := by
      intro h5; apply hc; rw [h5]; rfl
    have h12 : s.count ≤ 12 := hw.2.1
    refine ⟨s1, _, ht, fun h => absurd h hc, fun _ => ⟨hw.1, by omega, ?_, rfl, h3⟩⟩
    simp only [tick, if_neg hcm]

/-- Witness of C15: the state with a full window of twelve readings 10. -/
theorem append_in_bounds_witness :
    Reachable (filled (constantLux 100))
    ∧ ∃ s1 out, tick (filled (constantLux 100)) 70 = some (s1, out)
      ∧ ((filled (constantLux 100)).count = 12 →
            s1.buffer = (filled (constantLux 100)).buffer ∧ readings out = []
            ∧ tick (filled (constantLux 100)) 70 = reduce (filled (constantLux 100)))
      ∧ ((filled (constantLux 100)).count ≠ 12 →
            0 ≤ (filled (constantLux 100)).count ∧ (filled (constantLux 100)).count ≤ 11
            ∧ tick (filled (constantLux 100)) 70 = sample (filled (constantLux 100)) 70
            ∧ readings out = [70 / 10]
            ∧ ∀ i : Fin 12, s1.buffer i
                = if (i.val : Int) = (filled (constantLux 100)).count then 70 / 10
                  else (filled (constantLux 100)).buffer i) :=
  ⟨reachable_filled _,
    append_in_bounds (filled (constantLux 100)) (reachable_filled _) 70⟩

/-! ### The process without line 152 -/

theorem babylonianNoFlip_eq (v : ℚ) :
    ∀ (fuel : Nat) (r : LoopResult), babylonianNoFlip v fuel r = babylonian v fuel r := by
  intro fuel
  induction fuel with
  | zero => intro r; rfl
  | succ k ih =>
    intro r
    by_cases hsd : r.std_dev = 0
    · simp only [babylonianNoFlip, babylonian, if_pos hsd]
    · have hnot :
          ¬ (0.5 * (r.std_dev + v / r.std_dev) * (0.5 * (r.std_dev + v / r.std_dev)) - v < 0) :=
        not_lt.mpr (babylonian_step_ge v r.std_dev hsd)
      simp only [babylonianNoFlip, babylonian, if_neg hsd, if_neg hnot, ih]

theorem statisticsNoFlip_eq (s : State) : statisticsNoFlip s = statistics s := by
  simp only [statisticsNoFlip, statistics, babylonianNoFlip_eq]

theorem reduceNoFlip_eq (s : State) : reduceNoFlip s = reduce s := by
  simp only [reduceNoFlip, reduce, statisticsNoFlip_eq]

theorem tickNoFlip_eq (s : State) (lux : ℚ) : tickNoFlip s lux = tick s lux := by
  simp only [tickNoFlip, tick, reduceNoFlip_eq]

theorem runNoFlip_eq (luxes : List ℚ) : ∀ s : State, runNoFlip s luxes = run s luxes := by
  induction luxes with
  | nil => intro s; rfl
  | cons x rest ih =>
    intro s
    simp only [runNoFlip, run, tickNoFlip_eq, ih]

/-- C16: the statement `if (differ<0) difference = -difference;` has no
effect.  In the loop `differ` is never negative, and the process with that
statement removed makes, from any state and for any sensor values, the same
ticks as the process: the same variables after every tick (`difference`
included) and the same printed items. -/
theorem sign_flip_has_no_effect (s : State) (lux : ℚ) (luxes : List ℚ) :
    tickNoFlip s lux = tick s lux
    ∧ runNoFlip s luxes = run s luxes
    ∧ runNoFlip init luxes = run init luxes
    ∧ (∀ v sd : ℚ, sd ≠ 0 →
        ¬ (0.5 * (sd + v / sd) * (0.5 * (sd + v / sd)) - v < 0)) :=
  ⟨tickNoFlip_eq s lux, runNoFlip_eq luxes s, runNoFlip_eq luxes init,
    fun v sd h => not_lt.mpr (babylonian_step_ge v sd h)⟩

/-! ### Bounds on the result of the loop -/

/-- From a guess whose square is at least the variance, the loop never leaves
a larger guess. -/
theorem babylonian_le (v : ℚ) (hv : 0 ≤ v) :
    ∀ (fuel : Nat) (r r1 : LoopResult), 0 < r.std_dev → v ≤ r.std_dev * r.std_dev →
      babylonian v fuel r = some r1 → r1.std_dev ≤ r.std_dev := by
  intro fuel
  induction fuel with
  | zero =>
    intro r r1 _ _ h
    simp only [babylonian, Option.some.injEq] at h
    rw [← h]
  | succ k ih =>
    intro r r1 hr hsq h
    have hne : r.std_dev ≠ 0 := ne_of_gt hr
    have hpos := babylonian_step_pos v r.std_dev hv hr
    have hge := babylonian_step_ge v r.std_dev hne
    have hnot :
        ¬ (0.5 * (r.std_dev + v / r.std_dev) * (0.5 * (r.std_dev + v / r.std_dev)) - v < 0) :=
      not_lt.mpr hge
    have hdiv : v / r.std_dev ≤ r.std_dev := by
      rw [div_le_iff₀ hr]; exact hsq
    have hstep : 0.5 * (r.std_dev + v / r.std_dev) ≤ r.std_dev := by
      norm_num
      linarith
    by_cases hbrk :
        0.5 * (r.std_dev + v / r.std_dev) * (0.5 * (r.std_dev + v / r.std_dev)) - v < error
    · simp only [babylonian, if_neg hne, if_neg hnot, if_pos hbrk, Option.some.injEq] at h
      rw [← h]
      exact hstep
    · simp only [babylonian, if_neg hne, if_neg hnot, if_neg hbrk] at h
      have h1 := ih ⟨0.5 * (r.std_dev + v / r.std_dev), r.difference, r.iterations + 1⟩ r1
        hpos (by linarith) h
      exact le_trans h1 hstep

/-- From the seed 10 the loop leaves at most the first guess `5 + v / 20`. -/
theorem babylonian_seed_le (v d : ℚ) (hv : 0 ≤ v) (r1 : LoopResult)
    (h : babylonian v 50 ⟨10, d, 0⟩ = some r1) : r1.std_dev ≤ 5 + v / 20 := by
  have hne : (10 : ℚ) ≠ 0 := by norm_num
  have hstep : 0.5 * ((10 : ℚ) + v / 10) = 5 + v / 20 := by
    norm_num
    ring
  have hge := babylonian_step_ge v 10 hne
  rw [hstep] at hge
  have hpos : (0 : ℚ) < 5 + v / 20 := by
    have : 0 ≤ v / 20 := div_nonneg hv (by norm_num)
    linarith
  by_cases hbrk : (5 + v / 20) * (5 + v / 20) - v < 1 / 1000
  · rw [babylonian_break v 10 d (5 + v / 20) 49 0 hne hstep hge hbrk] at h
    simp only [Option.some.injEq] at h
    rw [← h]
  · rw [babylonian_continue v 10 d (5 + v / 20) 49 0 hne hstep (not_lt.mp hbrk)] at h
    exact babylonian_le v hv 49 ⟨5 + v / 20, d, 0 + 1⟩ r1 hpos (by linarith) h

/-- The variance of twelve readings between 0 and `c` is at most `c ^ 2`. -/
theorem variance_le_sq (b : Fin 12 → ℚ) (c : ℚ) (hb : ∀ i : Fin 12, 0 ≤ b i ∧ b i ≤ c) :
    (∑ i : Fin 12, (b i - (∑ j : Fin 12, b j) / 12) ^ 2) / 12 ≤ c ^ 2 := by
  have hs0 : 0 ≤ ∑ j : Fin 12, b j := Finset.sum_nonneg (fun i _ => (hb i).1)
  have hs1 : ∑ j : Fin 12, b j ≤ 12 * c := by
    have h := Finset.sum_le_sum (fun i (_ : i ∈ Finset.univ) => (hb i).2)
    simpa using h
  have hm0 : 0 ≤ (∑ j : Fin 12, b j) / 12 := div_nonneg hs0 (by norm_num)
  have hm1 : (∑ j : Fin 12, b j) / 12 ≤ c := by
    rw [div_le_iff₀ (by norm_num)]; linarith
  have hterm : ∀ i : Fin 12, (b i - (∑ j : Fin 12, b j) / 12) ^ 2 ≤ c ^ 2 := by
    intro i
    have h1 := (hb i).1
    have h2 := (hb i).2
    apply sq_le_sq'
    · linarith
    · linarith
  have hsum : ∑ i : Fin 12, (b i - (∑ j : Fin 12, b j) / 12) ^ 2 ≤ 12 * c ^ 2 := by
    have h := Finset.sum_le_sum (fun i (_ : i ∈ Finset.univ) => hterm i)
    simpa using h
  rw [div_le_iff₀ (by norm_num)]
  linarith

/-- The reduce tick at the wait, with the result of the loop made explicit. -/
theorem reduce_loop (s : State) (hw : AtWait s) (hc : s.count = 12) :
    ∃ r, babylonian ((∑ i : Fin 12, (s.buffer i - (∑ j : Fin 12, s.buffer j) / 12) ^ 2) / 12) 50
          ⟨10, s.buffer 11 - (∑ j : Fin 12, s.buffer j) / 12, 0⟩ = some r
      ∧ statistics s
          = some ({ s with average := (∑ j : Fin 12, s.buffer j) / 12,
                           difference := r.difference,
                           variance := (∑ i : Fin 12,
                              (s.buffer i - (∑ j : Fin 12, s.buffer j) / 12) ^ 2) / 12,
                           std_dev := r.std_dev }, r.iterations)
      ∧ 0 < r.std_dev
      ∧ (∑ i : Fin 12, (s.buffer i - (∑ j : Fin 12, s.buffer j) / 12) ^ 2) / 12
          ≤ r.std_dev * r.std_dev
      ∧ 1 ≤ r.iterations ∧ r.iterations ≤ 50 := by
  have hv : 0 ≤ (∑ i : Fin 12, (s.buffer i - (∑ j : Fin 12, s.buffer j) / 12) ^ 2) / 12 :=
    div_nonneg (Finset.sum_nonneg (fun i _ => sq_nonneg _)) (by norm_num)
  obtain ⟨r, h1, h2, _, h4, _, h6⟩ := babylonian_spec _ hv 50
    ⟨10, s.buffer 11 - (∑ j : Fin 12, s.buffer j) / 12, 0⟩ (by norm_num)
  have h7 := h6 (by norm_num)
  refine ⟨r, h1, statistics_loop s hw hc r h1, h2, h7.1, ?_, ?_⟩
  · have := h7.2; simp only at this; omega
  · simp only at h4; omega

/-- C17: if the twelve readings of a full window lie between 0 and 15, the
reduce step computes `std_dev ≤ 20` and reports "12-into-1" with the mean as
the single reduced value. -/
theorem operating_range_collapse (s : State) (hr : Reachable s) (hc : s.count = 12)
    (hb : ∀ i : Fin 12, 0 ≤ s.buffer i ∧ s.buffer i ≤ 15) (lux : ℚ) :
    ∃ m n, statistics s = some (m, n) ∧ m.std_dev ≤ 20
      ∧ ¬ (20 < m.std_dev ∧ m.std_dev < 40) ∧ ¬ (40 ≤ m.std_dev)
      ∧ tick s lux = some (fresh s.buffer,
          [Output.report ⟨List.ofFn s.buffer, m.std_dev, "12-into-1",
            [(∑ j : Fin 12, s.buffer j) / 12]⟩]) := by
  have hw := reachable_atWait hr
  have hv0 : 0 ≤ (∑ i : Fin 12, (s.buffer i - (∑ j : Fin 12, s.buffer j) / 12) ^ 2) / 12 :=
    div_nonneg (Finset.sum_nonneg (fun i _ => sq_nonneg _)) (by norm_num)
  have hv1 := variance_le_sq s.buffer 15 hb
  obtain ⟨r, h1, hst, _⟩ := reduce_loop s hw hc
  have hle := babylonian_seed_le _ _ hv0 r h1
  have h20 : r.std_dev ≤ 20 := by
    have : (15 : ℚ) ^ 2 = 225 := by norm_num
    rw [this] at hv1
    linarith
  have hlow := selection_low
    { s with average := (∑ j : Fin 12, s.buffer j) / 12,
             difference := r.difference,
             variance := (∑ i : Fin 12,
                (s.buffer i - (∑ j : Fin 12, s.buffer j) / 12) ^ 2) / 12,
             std_dev := r.std_dev } h20
  have ht := tick_reduce s _ r.iterations _ lux hc hst hlow
  exact ⟨_, _, hst, h20, fun h => absurd h20 (not_le.mpr h.1),
    fun h => absurd h20 (not_le.mpr (by linarith)), ht⟩

/-- Witness of C17: the window sampled from sensor values alternating between 0
and 150 (readings 0 and 15, the ends of the range). -/
theorem operating_range_collapse_witness :
    Reachable (filled (alternatingLux 150)) ∧ (filled (alternatingLux 150)).count = 12
    ∧ (∀ i : Fin 12, 0 ≤ (filled (alternatingLux 150)).buffer i
          ∧ (filled (alternatingLux 150)).buffer i ≤ 15)
    ∧ ∃ m n, statistics (filled (alternatingLux 150)) = some (m, n) ∧ m.std_dev ≤ 20
      ∧ ¬ (20 < m.std_dev ∧ m.std_dev < 40) ∧ ¬ (40 ≤ m.std_dev)
      ∧ tick (filled (alternatingLux 150)) 0 = some (fresh (filled (alternatingLux 150)).buffer,
          [Output.report ⟨List.ofFn (filled (alternatingLux 150)).buffer, m.std_dev,
            "12-into-1", [(∑ j : Fin 12, (filled (alternatingLux 150)).buffer j) / 12]⟩]) :=
  have hb : ∀ i : Fin 12, 0 ≤ (filled (alternatingLux 150)).buffer i
      ∧ (filled (alternatingLux 150)).buffer i ≤ 15 := by
    intro i
    show 0 ≤ alternatingLux 150 i / 10 ∧ alternatingLux 150 i / 10 ≤ 15
    by_cases h : i.val % 2 = 0
    · rw [alternatingLux_even 150 i h]; norm_num
    · rw [alternatingLux_odd 150 i h]; norm_num
  ⟨reachable_filled _, rfl, hb,
    operating_range_collapse (filled (alternatingLux 150)) (reachable_filled _) rfl hb 0⟩

/-! ### Convergence of the loop -/

/-- One pass from a guess whose square is at least the variance divides the
excess `std_dev ^ 2 - variance` by four at least. -/
theorem babylonian_step_quarter (v sd : ℚ) (hv : 0 ≤ v) (hsd : 0 < sd) (he : 0 ≤ sd * sd - v) :
    0.5 * (sd + v / sd) * (0.5 * (sd + v / sd)) - v ≤ (sd * sd - v) / 4 := by
  have hne : sd ≠ 0 := ne_of_gt hsd
  rw [babylonian_step_sq v sd hne]
  have hq0 : 0 ≤ v / sd := div_nonneg hv hsd.le
  have hq1 : v / sd ≤ sd := by
    rw [div_le_iff₀ hsd]; linarith
  have hv2 : v = sd * (v / sd) := by
    field_simp
  have h1 : 0 ≤ (sd - v / sd) * (v / sd) := mul_nonneg (by linarith) hq0
  have h2 : (0.5 * (sd - v / sd)) ^ 2 = (sd - v / sd) ^ 2 / 4 := by
    norm_num
    ring
  rw [h2]
  have h3 : (sd - v / sd) ^ 2 ≤ sd * sd - v := by
    have h4 : sd * sd - v = sd * sd - sd * (v / sd) := by rw [← hv2]
    rw [h4]
    nlinarith
  linarith

/-- If the excess `std_dev ^ 2 - variance` of the guess is below
`4 ^ fuel / 1000`, the loop ends within `fuel` passes on a guess that meets the
tolerance. -/
theorem babylonian_converges (v : ℚ) (hv : 0 ≤ v) :
    ∀ (fuel : Nat) (r : LoopResult), 0 < r.std_dev → 0 ≤ r.std_dev * r.std_dev - v →
      r.std_dev * r.std_dev - v < 4 ^ fuel / 1000 →
      ∃ r1, babylonian v fuel r = some r1 ∧ r1.std_dev * r1.std_dev - v < 1 / 1000
        ∧ r1.iterations ≤ r.iterations + fuel := by
  intro fuel
  induction fuel with
  | zero =>
    intro r _ _ h
    refine ⟨r, rfl, ?_, le_refl _⟩
    simpa using h
  | succ k ih =>
    intro r hr he h
    have hne : r.std_dev ≠ 0 := ne_of_gt hr
    have hpos := babylonian_step_pos v r.std_dev hv hr
    have hge := babylonian_step_ge v r.std_dev hne
    have hq := babylonian_step_quarter v r.std_dev hv hr he
    have hlt : 0.5 * (r.std_dev + v / r.std_dev) * (0.5 * (r.std_dev + v / r.std_dev)) - v
        < 4 ^ k / 1000 := by
      have h4 : (4 : ℚ) ^ (k + 1) / 1000 = 4 * (4 ^ k / 1000) := by
        rw [pow_succ]; ring
      rw [h4] at h
      linarith
    by_cases hbrk :
        0.5 * (r.std_dev + v / r.std_dev) * (0.5 * (r.std_dev + v / r.std_dev)) - v < 1 / 1000
    · refine ⟨⟨0.5 * (r.std_dev + v / r.std_dev), r.difference, r.iterations + 1⟩, ?_, hbrk,
        by simp only; omega⟩
      exact babylonian_break v r.std_dev r.difference _ k r.iterations hne rfl hge hbrk
    · obtain ⟨r1, h1, h2, h3⟩ :=
        ih ⟨0.5 * (r.std_dev + v / r.std_dev), r.difference, r.iterations + 1⟩ hpos hge hlt
      refine ⟨r1, ?_, h2, by simp only at h3; omega⟩
      rw [babylonian_continue v r.std_dev r.difference _ k r.iterations hne rfl
        (not_lt.mp hbrk)]
      exact h1

/-- From the seed 10 and a variance between 0 and 1000000 the loop ends within
its 50 passes on a guess that meets the tolerance. -/
theorem babylonian_seed_converges (v d : ℚ) (h0 : 0 ≤ v) (h1 : v ≤ 1000000) :
    ∃ r, babylonian v 50 ⟨10, d, 0⟩ = some r ∧ 1 ≤ r.iterations ∧ r.iterations ≤ 50
      ∧ r.std_dev * r.std_dev - v < 1 / 1000 := by
  have hne : (10 : ℚ) ≠ 0 := by norm_num
  have hstep : 0.5 * ((10 : ℚ) + v / 10) = 5 + v / 20 := by
    norm_num
    ring
  have hge := babylonian_step_ge v 10 hne
  rw [hstep] at hge
  have hpos : (0 : ℚ) < 5 + v / 20 := by
    have : 0 ≤ v / 20 := div_nonneg h0 (by norm_num)
    linarith
  by_cases hbrk : (5 + v / 20) * (5 + v / 20) - v < 1 / 1000
  · exact ⟨_, babylonian_break v 10 d (5 + v / 20) 49 0 hne hstep hge hbrk, le_refl _,
      by norm_num, hbrk⟩
  · have hbound : (5 + v / 20) * (5 + v / 20) - v < 4 ^ 49 / 1000 := by
      have h2 : (5 + v / 20) * (5 + v / 20) - v = (5 - v / 20) ^ 2 := by ring
      have h3 : (5 - v / 20) ^ 2 ≤ 49995 ^ 2 := by
        apply sq_le_sq'
        · linarith
        · linarith
      rw [h2]
      have h4 : (49995 : ℚ) ^ 2 < 4 ^ 49 / 1000 := by norm_num
      linarith
    obtain ⟨r1, h5, h6, h7⟩ :=
      babylonian_converges v h0 49 ⟨5 + v / 20, d, 0 + 1⟩ hpos hge hbound
    obtain ⟨r2, h8, _, _, _, _, h9⟩ := babylonian_spec v h0 49 ⟨5 + v / 20, d, 0 + 1⟩ hpos
    rw [h5] at h8
    simp only [Option.some.injEq] at h8
    subst h8
    have h10 := (h9 (by norm_num)).2
    refine ⟨r1, ?_, by simp only at h10; omega, by simp only at h7; omega, h6⟩
    rw [babylonian_continue v 10 d (5 + v / 20) 49 0 hne hstep (not_lt.mp hbrk)]
    exact h5

/-- The variance of twelve readings between 0 and `c` is at most `c ^ 2 / 4`. -/
theorem variance_le_quarter_sq (b : Fin 12 → ℚ) (c : ℚ)
    (hb : ∀ i : Fin 12, 0 ≤ b i ∧ b i ≤ c) :
    (∑ i : Fin 12, (b i - (∑ j : Fin 12, b j) / 12) ^ 2) / 12 ≤ c ^ 2 / 4 := by
  have hS : ∑ j : Fin 12, b j = 12 * ((∑ j : Fin 12, b j) / 12) := by ring
  generalize (∑ j : Fin 12, b j) / 12 = mu at hS ⊢
  have hterm : ∀ i : Fin 12, (b i - mu) ^ 2 ≤ (c - 2 * mu) * b i + mu ^ 2 := by
    intro i
    have h := mul_nonneg (hb i).1 (sub_nonneg.mpr (hb i).2)
    nlinarith
  have hsum := Finset.sum_le_sum (fun i (_ : i ∈ Finset.univ) => hterm i)
  have heq : ∑ i : Fin 12, ((c - 2 * mu) * b i + mu ^ 2)
      = (c - 2 * mu) * (12 * mu) + 12 * mu ^ 2 := by
    rw [Finset.sum_add_distrib, ← Finset.mul_sum, hS]
    simp
  rw [heq] at hsum
  rw [div_le_iff₀ (by norm_num)]
  nlinarith [sq_nonneg (mu - c / 2)]

/-- C18: for every variance `v` with `0 ≤ v ≤ 1000000` the Babylonian loop run
from the seed 10 ends within its 50 passes on a guess with
`std_dev ^ 2 - v < 0.001`; so does the reduce step on every full window of that
variance, whose report carries this `std_dev`; and every window of readings
between 0 and 2000 has such a variance. -/
theorem loop_converges_below_million (v d : ℚ) (h0 : 0 ≤ v) (h1 : v ≤ 1000000) :
    (∃ r, babylonian v 50 ⟨10, d, 0⟩ = some r ∧ 1 ≤ r.iterations ∧ r.iterations ≤ 50
        ∧ r.std_dev * r.std_dev - v < 0.001)
    ∧ (∀ (s : State) (lux : ℚ), Reachable s → s.count = 12 →
        (∑ i : Fin 12, (s.buffer i - (∑ j : Fin 12, s.buffer j) / 12) ^ 2) / 12 = v →
        ∃ m n s1 rep, statistics s = some (m, n) ∧ m.variance = v ∧ n ≤ 50
          ∧ m.std_dev * m.std_dev - v < 0.001
          ∧ tick s lux = some (s1, [Output.report rep]) ∧ rep.stdDev = m.std_dev)
    ∧ (∀ b : Fin 12 → ℚ, (∀ i : Fin 12, 0 ≤ b i ∧ b i ≤ 2000) →
        0 ≤ (∑ i : Fin 12, (b i - (∑ j : Fin 12, b j) / 12) ^ 2) / 12
        ∧ (∑ i : Fin 12, (b i - (∑ j : Fin 12, b j) / 12) ^ 2) / 12 ≤ 1000000) := by
  have herr : (0.001 : ℚ) = 1 / 1000 := by norm_num
  rw [herr]
  refine ⟨babylonian_seed_converges v d h0 h1, ?_, ?_⟩
  · intro s lux hr hc hv
    have hw := reachable_atWait hr
    obtain ⟨m, n, rep, h2, h3, _, h5, _, _, _, h9, h10, _, _, _, _, _⟩ :=
      reduce_report s lux hw hc
    obtain ⟨r, h11, h12, _⟩ := reduce_loop s hw hc
    rw [hv] at h11 h12
    obtain ⟨r2, h13, _, h15, h16⟩ :=
      babylonian_seed_converges v (s.buffer 11 - (∑ j : Fin 12, s.buffer j) / 12) h0 h1
    rw [h11] at h13
    simp only [Option.some.injEq] at h13
    subst h13
    rw [h2] at h12
    simp only [Option.some.injEq, Prod.mk.injEq] at h12
    obtain ⟨e1, e2⟩ := h12
    have hmv : m.variance = v := by rw [e1]
    have hms : m.std_dev = r.std_dev := by rw [e1]
    refine ⟨m, n, _, rep, h2, hmv, by omega, ?_, h3, h5⟩
    rw [hms]; exact h16
  · intro b hb
    refine ⟨div_nonneg (Finset.sum_nonneg (fun i _ => sq_nonneg _)) (by norm_num), ?_⟩
    have h := variance_le_quarter_sq b 2000 hb
    have e : (2000 : ℚ) ^ 2 / 4 = 1000000 := by norm_num
    rw [e] at h
    exact h

/-- Witness of C18: the variance 1000000, which is that of the window
sampled from sensor values alternating between 0 and 20000 (readings 0 and
2000). -/
theorem loop_converges_below_million_witness :
    (0 : ℚ) ≤ 1000000 ∧ (1000000 : ℚ) ≤ 1000000
    ∧ Reachable (filled (alternatingLux 20000))
    ∧ (∑ i : Fin 12, ((filled (alternatingLux 20000)).buffer i
          - (∑ j : Fin 12, (filled (alternatingLux 20000)).buffer j) / 12) ^ 2) / 12 = 1000000
    ∧ ((∃ r, babylonian 1000000 50 ⟨10, 0, 0⟩ = some r ∧ 1 ≤ r.iterations ∧ r.iterations ≤ 50
        ∧ r.std_dev * r.std_dev - 1000000 < 0.001)
      ∧ (∀ (s : State) (lux : ℚ), Reachable s → s.count = 12 →
          (∑ i : Fin 12, (s.buffer i - (∑ j : Fin 12, s.buffer j) / 12) ^ 2) / 12 = 1000000 →
          ∃ m n s1 rep, statistics s = some (m, n) ∧ m.variance = 1000000 ∧ n ≤ 50
            ∧ m.std_dev * m.std_dev - 1000000 < 0.001
            ∧ tick s lux = some (s1, [Output.report rep]) ∧ rep.stdDev = m.std_dev)
      ∧ (∀ b : Fin 12 → ℚ, (∀ i : Fin 12, 0 ≤ b i ∧ b i ≤ 2000) →
          0 ≤ (∑ i : Fin 12, (b i - (∑ j : Fin 12, b j) / 12) ^ 2) / 12
          ∧ (∑ i : Fin 12, (b i - (∑ j : Fin 12, b j) / 12) ^ 2) / 12 ≤ 1000000)) :=
  ⟨by norm_num, le_refl _, reachable_filled _,
    by rw [filled_alternating_variance]; norm_num,
    loop_converges_below_million 1000000 0 (by norm_num) (le_refl _)⟩

/-- C19: on every full window the reduce step runs at least one pass of the
loop, and the `std_dev` it reports is positive with `std_dev ^ 2 ≥ variance`;
hence a variance of at least `40 ^ 2` is reported as "No aggregation", and a
variance above `20 ^ 2` is not reported as "12-into-1". -/
theorem std_dev_never_underestimates (s : State) (hr : Reachable s) (hc : s.count = 12)
    (lux : ℚ) :
    ∃ m n s1 rep, statistics s = some (m, n) ∧ 0 ≤ m.variance ∧ 1 ≤ n
      ∧ 0 < m.std_dev ∧ m.variance ≤ m.std_dev ^ 2
      ∧ tick s lux = some (s1, [Output.report rep]) ∧ rep.stdDev = m.std_dev
      ∧ (40 ^ 2 ≤ m.variance → rep.aggregation = "No aggregation")
      ∧ (20 ^ 2 < m.variance → rep.aggregation ≠ "12-into-1") := by
  have hw := reachable_atWait hr
  obtain ⟨m, n, rep, h2, h3, _, h5, h6, h7, h8, h9, h10, h11, h12, h13, _, _⟩ :=
    reduce_report s lux hw hc
  have hv0 : 0 ≤ m.variance := by
    rw [h10]
    exact div_nonneg (Finset.sum_nonneg (fun i _ => sq_nonneg _)) (by norm_num)
  refine ⟨m, n, _, rep, h2, hv0, h13, h11, by rw [sq]; exact h12, h3, h5, ?_, ?_⟩
  · intro hv
    have h40 : 40 ≤ m.std_dev := by
      by_contra hlt
      have hlt2 : m.std_dev < 40 := not_le.mp hlt
      nlinarith
    exact (h8 h40).1
  · intro hv
    have h20 : 20 < m.std_dev := by
      by_contra hle
      have hle2 : m.std_dev ≤ 20 := not_lt.mp hle
      nlinarith
    rcases lt_or_le m.std_dev 40 with h | h
    · rw [(h7 h20 h).1]; decide
    · rw [(h8 h).1]; decide

/-- Witness of C19: the window sampled from sensor values alternating between 0
and 1000 (readings 0 and 100, variance 2500). -/
theorem std_dev_never_underestimates_witness :
    Reachable (filled (alternatingLux 1000)) ∧ (filled (alternatingLux 1000)).count = 12
    ∧ ∃ m n s1 rep, statistics (filled (alternatingLux 1000)) = some (m, n)
      ∧ 0 ≤ m.variance ∧ 1 ≤ n
      ∧ 0 < m.std_dev ∧ m.variance ≤ m.std_dev ^ 2
      ∧ tick (filled (alternatingLux 1000)) 0 = some (s1, [Output.report rep])
      ∧ rep.stdDev = m.std_dev
      ∧ (40 ^ 2 ≤ m.variance → rep.aggregation = "No aggregation")
      ∧ (20 ^ 2 < m.variance → rep.aggregation ≠ "12-into-1") :=
  ⟨reachable_filled _, rfl,
    std_dev_never_underestimates (filled (alternatingLux 1000)) (reachable_filled _) rfl 0⟩

end Aggregation
